import Mathlib

/-!
# Verification of the rusty-kv server core

A shallow embedding of the rusty-kv server (RESP codec, in-memory store,
command handlers) in Lean 4, with theorems checking the natural-language
specification against the code.

The RESP codec (`src/resp/value.rs`, `src/resp/parser.rs`) is embedded at the
byte level: a Rust `String` is represented by the list of its UTF-8 bytes
(each a `Nat` below 256), a `BytesMut` buffer by a `List Nat`.  The store and
command layer (`src/storage/memory.rs`, `src/commands/**`) is embedded at the
string level, with Rust `HashMap`s represented by association lists whose
lookup/insert/remove semantics match `HashMap`'s.
-/

namespace RustyKV

/-! ## Byte-level helpers: decimal rendering and parsing, UTF-8 validity -/

/-- Decimal digits (as ASCII bytes, most significant first) of a positive
number; `fuel`-driven recursion mirroring the usual div-10 loop.  `fuel ≥ n`
is enough for the recursion to complete. -/
def natToDecAux : Nat → Nat → List Nat
  | 0, _ => []
  | fuel + 1, n => if n = 0 then [] else natToDecAux fuel (n / 10) ++ [n % 10 + 48]

/-- ASCII decimal rendering of a natural number, as produced by Rust's
`Display` for unsigned integers (used by `format!` in `Value::serialize`). -/
def natToDec (n : Nat) : List Nat := if n = 0 then [48] else natToDecAux n n

/-- ASCII decimal rendering of a signed integer, as produced by Rust's
`Display` for `i64` (a `-` sign followed by the magnitude). -/
def intToDec (i : Int) : List Nat :=
  if i < 0 then 45 :: natToDec (-i).toNat else natToDec i.toNat

/-- Is the byte an ASCII decimal digit? -/
def isDigit (b : Nat) : Bool := 48 ≤ b && b ≤ 57

/-- Numeric value of a big-endian list of ASCII digit bytes. -/
def decValue (ds : List Nat) : Nat := ds.foldl (fun a d => a * 10 + (d - 48)) 0

/-- Model of `str::parse::<i64>` (after `String::from_utf8`) on a byte list:
an optional ASCII `+`/`-` sign followed by at least one ASCII digit, with the
value required to fit in `i64`; anything else is an error.  Bytes outside
ASCII are not digits, so inputs that Rust would reject at the UTF-8 stage are
rejected here as well (with a different error text, which no caller
inspects). -/
def splitSign (bs : List Nat) : Int × List Nat :=
  match bs with
  | b :: rest => if b = 43 then (1, rest) else if b = 45 then (-1, rest) else (1, bs)
  | [] => (1, [])

/-- Continuation of `splitSign` for the full `parse::<i64>` model: the digit
part must be nonempty and all ASCII digits, and the signed value must fit in
`i64`. -/
def parseI64 (bs : List Nat) : Except String Int :=
  let p := splitSign bs
  if p.2 = [] then .error "cannot parse integer from empty string"
  else if ¬ p.2.all isDigit then .error "invalid digit found in string"
  else
    let v : Int := p.1 * (decValue p.2 : Int)
    if v < -(2 ^ 63) ∨ (2 ^ 63 : Int) ≤ v then .error "number too large to fit in target type"
    else .ok v

/-- Semantics of the `i64 as usize` cast (two's-complement wrap into `0 .. 2^64`). -/
def asUsize (i : Int) : Nat := (i % (2 : Int) ^ 64).toNat

/-- Is the byte a UTF-8 continuation byte (`0x80 ..= 0xBF`)? -/
def isCont (b : Nat) : Bool := 128 ≤ b && b ≤ 191

/-- Number of continuation bytes demanded by a non-ASCII leading byte
(0 marks an invalid leading byte: a bare continuation byte, an overlong
`C0`/`C1` start, or a start above `F4`). -/
def utf8Need (b : Nat) : Nat :=
  if 194 ≤ b && b ≤ 223 then 1
  else if 224 ≤ b && b ≤ 239 then 2
  else if 240 ≤ b && b ≤ 244 then 3
  else 0

/-- Lower bound for the first continuation byte (tightened for `E0` and `F0`
to exclude overlong encodings). -/
def utf8ContLo (b : Nat) : Nat := if b = 224 then 160 else if b = 240 then 144 else 128

/-- Upper bound for the first continuation byte (tightened for `ED` to
exclude surrogates and for `F4` to cap at `U+10FFFF`). -/
def utf8ContHi (b : Nat) : Nat := if b = 237 then 159 else if b = 244 then 143 else 191

/-- Range check for the first continuation byte after leading byte `b`. -/
def utf8Cont1 (b b1 : Nat) : Bool := utf8ContLo b ≤ b1 && b1 ≤ utf8ContHi b

/-- Validity of a byte list as UTF-8, as checked by Rust's
`String::from_utf8` (RFC 3629: no overlong forms, no surrogates, maximum
scalar value `U+10FFFF`). -/
def utf8Valid : List Nat → Bool
  | [] => true
  | b :: rest =>
    if b ≤ 127 then utf8Valid rest
    else
      match utf8Need b, rest with
      | 1, b1 :: rest2 => utf8Cont1 b b1 && utf8Valid rest2
      | 2, b1 :: b2 :: rest3 => utf8Cont1 b b1 && isCont b2 && utf8Valid rest3
      | 3, b1 :: b2 :: b3 :: rest4 =>
        utf8Cont1 b b1 && isCont b2 && isCont b3 && utf8Valid rest4
      | _, _ => false

/-! ## RESP value model (`src/resp/value.rs`)

Rust `String` payloads are represented by their UTF-8 byte lists. -/

namespace Resp

/-- The RESP `Value` enum of `src/resp/value.rs`. -/
inductive Value where
  /-- Null value (`$-1\r\n` on the wire). -/
  | null
  /-- Simple string (`+{string}\r\n`). -/
  | simpleString (s : List Nat)
  /-- Bulk string (`${length}\r\n{string}\r\n`). -/
  | bulkString (s : List Nat)
  /-- Array of values (`*{length}\r\n{values...}`). -/
  | array (vs : List Value)
  /-- Error message (`-{message}\r\n`). -/
  | error (s : List Nat)
  /-- Integer (`:{integer}\r\n`). -/
  | integer (i : Int)
  /-- Boolean (`#{t|f}\r\n`). -/
  | boolean (b : Bool)

mutual

/-- Model of `Value::serialize` of `src/resp/value.rs`, at the byte level
(`13, 10` is CRLF; `43 45 58 36 42 35` are `+ - : $ * #`). -/
def Value.serialize : Value → List Nat
  | .null => [36, 45, 49, 13, 10]
  | .simpleString s => 43 :: (s ++ [13, 10])
  | .bulkString s => 36 :: (natToDec s.length ++ [13, 10] ++ s ++ [13, 10])
  | .integer i => 58 :: (intToDec i ++ [13, 10])
  | .error s => 45 :: (s ++ [13, 10])
  | .boolean b => 35 :: ((if b then [116] else [102]) ++ [13, 10])
  | .array vs => 42 :: (natToDec vs.length ++ [13, 10] ++ serializeList vs)

/-- Concatenation of the serializations of a list of values (the `for` loop
in the `Array` arm of `Value::serialize`). -/
def serializeList : List Value → List Nat
  | [] => []
  | v :: vs => v.serialize ++ serializeList vs

end

mutual

/-- Representation invariant of the Rust `Value`: every string field holds
the bytes of a Rust `String` (valid UTF-8); `SimpleString`/`Error` text has
no CR or LF (they are line frames); lengths are below `2^63` (Rust values
occupy memory, and the codec reads lengths back with `parse::<i64>`); and
`Integer` holds an `i64`. -/
def Value.wellFormed : Value → Bool
  | .null => true
  | .simpleString s => utf8Valid s && decide (13 ∉ s) && decide (10 ∉ s)
  | .bulkString s => utf8Valid s && decide (s.length < 2 ^ 63)
  | .error s => utf8Valid s && decide (13 ∉ s) && decide (10 ∉ s)
  | .integer i => decide (-(2 ^ 63) ≤ i) && decide (i < 2 ^ 63)
  | .boolean _ => true
  | .array vs => decide (vs.length < 2 ^ 63) && wellFormedList vs

/-- All values of the list are well formed. -/
def wellFormedList : List Value → Bool
  | [] => true
  | v :: vs => v.wellFormed && wellFormedList vs

end

mutual

/-- Nesting depth of a value (arrays add one level). -/
def Value.depth : Value → Nat
  | .array vs => depthList vs + 1
  | _ => 1

/-- Maximum depth over a list of values. -/
def depthList : List Value → Nat
  | [] => 0
  | v :: vs => max v.depth (depthList vs)

end

/-! ## RESP parser (`src/resp/parser.rs`) -/

namespace RespParser

/-- Model of `RespParser::read_until_crlf`: content before the first CRLF pair and the
total length including the CRLF, or `none` when no CRLF pair occurs. -/
def read_until_crlf : List Nat → Option (List Nat × Nat)
  | [] => none
  | [_] => none
  | b0 :: b1 :: rest =>
    if b0 = 13 ∧ b1 = 10 then some ([], 2)
    else (read_until_crlf (b1 :: rest)).map fun p => (b0 :: p.1, p.2 + 1)

/-- Model of `RespParser::parse_line`: bytes up to CRLF starting at `start`, converted
to a `String` (hence UTF-8-checked), with the consumed count. -/
def parse_line (buf : List Nat) (start : Nat) : Except String (List Nat × Nat) :=
  match read_until_crlf (buf.drop start) with
  | none => .error "CRLF not found"
  | some (line, len) =>
    if utf8Valid line then .ok (line, start + len) else .error "invalid utf-8"

/-- Model of `RespParser::parse_int`: `String::from_utf8` followed by
`parse::<i64>`. -/
def parse_int (bs : List Nat) : Except String Int := parseI64 bs

/-- Model of `RespParser::parse_simple_string`. -/
def parse_simple_string (buf : List Nat) : Except String (Option (Value × Nat)) :=
  match parse_line buf 1 with
  | .error e => .error e
  | .ok (line, len) => .ok (some (.simpleString line, len))

/-- Model of `RespParser::parse_error`. -/
def parse_error (buf : List Nat) : Except String (Option (Value × Nat)) :=
  match parse_line buf 1 with
  | .error e => .error e
  | .ok (line, len) => .ok (some (.error line, len))

/-- Model of `RespParser::parse_integer`. -/
def parse_integer (buf : List Nat) : Except String (Option (Value × Nat)) :=
  match parse_line buf 1 with
  | .error e => .error e
  | .ok (line, len) =>
    match parseI64 line with
    | .error e => .error e
    | .ok i => .ok (some (.integer i, len))

/-- Model of `RespParser::parse_bulk_string`.  Note the source reads the declared
length, the payload bytes (checked to be UTF-8 by `String::from_utf8`), and
then counts two further bytes into `total_len` without inspecting them. -/
def parse_bulk_string (buf : List Nat) : Except String (Option (Value × Nat)) :=
  match read_until_crlf (buf.drop 1) with
  | none => .error "Invalid bulk string length"
  | some (len_str, prefix_len) =>
    match parse_int len_str with
    | .error e => .error e
    | .ok len =>
      if len = -1 then .ok (some (.null, 1 + prefix_len))
      else
        let total_len := 1 + prefix_len + asUsize len + 2
        if buf.length < total_len then .ok none
        else
          let data := (buf.drop (1 + prefix_len)).take (asUsize len)
          if utf8Valid data then .ok (some (.bulkString data, total_len))
          else .error "invalid utf-8"

/-- Model of `RespParser::parse_boolean`. -/
def parse_boolean (buf : List Nat) : Except String (Option (Value × Nat)) :=
  match buf with
  | _ :: b1 :: b2 :: b3 :: _ =>
    if b1 = 116 then
      if b2 = 13 ∧ b3 = 10 then .ok (some (.boolean true, 4))
      else .error "Expected CRLF after boolean"
    else if b1 = 102 then
      if b2 = 13 ∧ b3 = 10 then .ok (some (.boolean false, 4))
      else .error "Expected CRLF after boolean"
    else .error "Invalid boolean value"
  | _ => .ok none

/-- The element loop of `RespParser::parse_array` (`for _ in 0..count`):
parses `n` further elements of `buf` starting at offset `total_len`,
accumulating `values`; an element for which the message parser reports
"need more data" is a hard `Incomplete array element` error. -/
def parse_elems (pm : List Nat → Except String (Option (Value × Nat)))
    (buf : List Nat) : Nat → Nat → List Value → Except String (Option (Value × Nat))
  | 0, total_len, values => .ok (some (.array values, total_len))
  | n + 1, total_len, values =>
    match pm (buf.drop total_len) with
    | .error e => .error e
    | .ok none => .error "Incomplete array element"
    | .ok (some (v, len)) => parse_elems pm buf n (total_len + len) (values ++ [v])

/-- Model of `RespParser::parse_array`, parameterized by the message parser used for
the elements.  A negative count other than `-1` yields an empty loop, as
Rust's `0..count` range does. -/
def parse_array (pm : List Nat → Except String (Option (Value × Nat)))
    (buf : List Nat) : Except String (Option (Value × Nat)) :=
  match read_until_crlf (buf.drop 1) with
  | none => .error "Invalid array header"
  | some (len_str, prefix_len) =>
    match parse_int len_str with
    | .error e => .error e
    | .ok count =>
      if count = -1 then .ok (some (.null, 1 + prefix_len))
      else parse_elems pm buf count.toNat (1 + prefix_len) []

/-- The body of `RespParser::parse_message`, taking the parser used for
array elements as a parameter.  The dispatch bytes are `+ - : $ * #`; any
other leading byte is the hard `Unknown RESP type` error. -/
def dispatch (pm : List Nat → Except String (Option (Value × Nat)))
    (buf : List Nat) : Except String (Option (Value × Nat)) :=
  match buf with
  | [] => .ok none
  | b :: _ =>
    if b = 43 then parse_simple_string buf
    else if b = 45 then parse_error buf
    else if b = 58 then parse_integer buf
    else if b = 36 then parse_bulk_string buf
    else if b = 42 then parse_array pm buf
    else if b = 35 then parse_boolean buf
    else .error "Unknown RESP type"

/-- Model of `RespParser::parse_message` with explicit recursion fuel: the
Rust function recurses through array elements, and each recursive call works
on a strictly shorter buffer, so `buf.length + 1` fuel always suffices. -/
def parse_messageF : Nat → List Nat → Except String (Option (Value × Nat))
  | 0, _ => .error "recursion limit"
  | fuel + 1, buf => dispatch (parse_messageF fuel) buf

/-- Model of `RespParser::parse_message` on a buffer (fuel instantiated so that it can
never run out: the recursion strictly shrinks the buffer). -/
def parse_message (buf : List Nat) : Except String (Option (Value × Nat)) :=
  parse_messageF (buf.length + 1) buf

end RespParser

end Resp

/-! ## Store and command layer (`src/storage/memory.rs`, `src/commands/**`)

Here Rust `String`s are represented by Lean `String`s, and `HashMap`s by
association lists whose lookup/insert/remove semantics match `HashMap`'s
(single binding per key). -/

namespace KV

/-- Lookup in an association list (`HashMap::get`). -/
def alist.get {α : Type} (k : String) : List (String × α) → Option α
  | [] => none
  | (k', v) :: rest => if k' = k then some v else alist.get k rest

/-- Key membership in an association list (`HashMap::contains_key`). -/
def alist.containsKey {α : Type} (k : String) (l : List (String × α)) : Bool :=
  (alist.get k l).isSome

/-- Insert-or-replace in an association list (`HashMap::insert`). -/
def alist.insert {α : Type} (k : String) (v : α) : List (String × α) → List (String × α)
  | [] => [(k, v)]
  | (k', v') :: rest => if k' = k then (k, v) :: rest else (k', v') :: alist.insert k v rest

/-- Removal from an association list (`HashMap::remove`, state part). -/
def alist.remove {α : Type} (k : String) : List (String × α) → List (String × α)
  | [] => []
  | (k', v') :: rest => if k' = k then rest else (k', v') :: alist.remove k rest

/-- The RESP `Value` enum of `src/resp/value.rs`, at the string level used by
the command handlers. -/
inductive Value where
  | null
  | simpleString (s : String)
  | bulkString (s : String)
  | array (vs : List Value)
  | error (s : String)
  | integer (i : Int)
  | boolean (b : Bool)

/-- The `Options` enum of `src/commands/general/set.rs` (`EX`, `PX`, `NX`,
`XX` modifiers of `SET`). -/
inductive Opt where
  | ex
  | px
  | nx
  | xx
deriving DecidableEq

/-- The `HashMap<Options, u64>` of extra `SET` arguments. -/
abbrev OptsMap := List (Opt × Nat)

/-- Insert-or-replace for the options map (`HashMap::insert`). -/
def OptsMap.insert (k : Opt) (v : Nat) : OptsMap → OptsMap
  | [] => [(k, v)]
  | (k', v') :: rest => if k' = k then (k, v) :: rest else (k', v') :: OptsMap.insert k v rest

/-- The `Entities` enum as used by `src/storage/memory.rs`: a `HashMap`
entity stores `(Value, options)` pairs per key (that is what
`MemoryStore::set` inserts and what `get`/`delete` destructure); `Set` and
`LinkedList` entities hold strings. -/
inductive Entities where
  | hashMap (m : List (String × (Value × OptsMap)))
  | set (s : List String)
  | linkedList (l : List String)

/-- The `UserStore` struct: named entities of one identity (the
`Arc<Mutex<...>>` wrappers are erased; handlers run one at a time per
store in this single-connection model). -/
structure UserStore where
  entities : List (String × Entities)

/-- The `MemoryStore` struct, with the lock and `Arc` wrappers erased:
identity-keyed user stores plus the (nullable) current identity. -/
structure MemoryStore where
  auth_stores : List (String × UserStore)
  current_user : Option String

/-- Model of `MemoryStore::new`. -/
def MemoryStore.new : MemoryStore := ⟨[], none⟩

/-- Replace one user's store inside `auth_stores` (the functional image of
mutating the user's store through its lock). -/
def MemoryStore.updateUser (store : MemoryStore) (user_hash : String) (ustore : UserStore) :
    MemoryStore :=
  { store with auth_stores := alist.insert user_hash ustore store.auth_stores }

/-- Model of `MemoryStore::set_current_user`: stores the hash and creates the
user's store if it does not exist yet. -/
def MemoryStore.set_current_user (store : MemoryStore) (user_hash : Option String) :
    MemoryStore :=
  let store1 : MemoryStore := { store with current_user := user_hash }
  match user_hash with
  | some hash =>
    if alist.containsKey hash store1.auth_stores then store1
    else { store1 with auth_stores := alist.insert hash ⟨[]⟩ store1.auth_stores }
  | none => store1

/-- Model of `MemoryStore::get_current_user`. -/
def MemoryStore.get_current_user (store : MemoryStore) : Option String := store.current_user

/-- Model of `MemoryStore::is_authenticated`. -/
def MemoryStore.is_authenticated (store : MemoryStore) : Bool := store.current_user.isSome

/-- Does the key contain a dot (`key.contains(".")`)? -/
def containsDot (key : String) : Bool := key.toList.contains '.'

/-- Model of `key.splitn(2, '.')`: the part before the first dot and the rest
after it.  When the key contains a dot this always yields exactly two parts,
so the `parts.len() == 2` test in the source always succeeds on that path. -/
def splitFirstDot (key : String) : String × String :=
  (⟨key.toList.takeWhile (fun c => c ≠ '.')⟩,
   ⟨(key.toList.dropWhile (fun c => c ≠ '.')).tail⟩)

/-- ASCII uppercasing of one character (`char::to_uppercase` on the ASCII
arguments the handlers compare against). -/
def charUpper (c : Char) : Char :=
  if 'a' ≤ c ∧ c ≤ 'z' then Char.ofNat (c.toNat - 32) else c

/-- ASCII lowercasing of one character. -/
def charLower (c : Char) : Char :=
  if 'A' ≤ c ∧ c ≤ 'Z' then Char.ofNat (c.toNat + 32) else c

/-- Model of `str::to_uppercase`. -/
def strToUpper (s : String) : String := ⟨s.toList.map charUpper⟩

/-- Model of `str::to_lowercase`. -/
def strToLower (s : String) : String := ⟨s.toList.map charLower⟩

/-- Model of `MemoryStore::create_entity`. -/
def MemoryStore.create_entity (store : MemoryStore) (entity_type name : String) :
    Except String MemoryStore :=
  if ¬ store.is_authenticated then .error "Authentication required"
  else
    let entityOrErr : Except String Entities :=
      if strToLower entity_type = "set" then .ok (.set [])
      else if strToLower entity_type = "hashmap" then .ok (.hashMap [])
      else if strToLower entity_type = "linkedlist" then .ok (.linkedList [])
      else .error ("Unknown entity type: " ++ entity_type)
    match entityOrErr with
    | .error e => .error e
    | .ok entity =>
      match store.get_current_user with
      | none => .error "panicked: unwrap on None"
      | some user_hash =>
        match alist.get user_hash store.auth_stores with
        | some ustore =>
          .ok (store.updateUser user_hash ⟨alist.insert name entity ustore.entities⟩)
        | none => .error "User store not found"

/-- Model of `MemoryStore::entity_add`: creates the entity as a `hashmap` if
absent, then inserts; a `HashMap` entity receives `(value, HashMap::new())`,
i.e. the pair with an empty options map. -/
def MemoryStore.entity_add (store : MemoryStore) (entity_name key : String) (value : Value) :
    Except String MemoryStore :=
  if ¬ store.is_authenticated then .error "Authentication required"
  else
    match store.get_current_user with
    | none => .error "panicked: unwrap on None"
    | some user_hash =>
      match alist.get user_hash store.auth_stores with
      | none => .error "User store not found"
      | some ustore =>
        let entity_exists := alist.containsKey entity_name ustore.entities
        let afterCreate : Except String MemoryStore :=
          if entity_exists then .ok store
          else store.create_entity "hashmap" entity_name
        match afterCreate with
        | .error e => .error e
        | .ok store1 =>
          match alist.get user_hash store1.auth_stores with
          | none => .error "User store not found"
          | some ustore1 =>
            match alist.get entity_name ustore1.entities with
            | none => .ok store1
            | some (.set s) =>
              let elem := match value with
                | .simpleString val => val
                | _ => key
              let s' := if s.contains elem then s else s ++ [elem]
              .ok (store1.updateUser user_hash
                ⟨alist.insert entity_name (.set s') ustore1.entities⟩)
            | some (.hashMap m) =>
              .ok (store1.updateUser user_hash
                ⟨alist.insert entity_name (.hashMap (alist.insert key (value, ([] : OptsMap)) m))
                  ustore1.entities⟩)
            | some (.linkedList l) =>
              let elem := match value with
                | .simpleString val => val
                | _ => key
              .ok (store1.updateUser user_hash
                ⟨alist.insert entity_name (.linkedList (l ++ [elem])) ustore1.entities⟩)

/-- Model of `MemoryStore::entity_get` (read-only). -/
def MemoryStore.entity_get (store : MemoryStore) (entity_name key : String) :
    Except String (Option Value) :=
  if ¬ store.is_authenticated then .error "Authentication required"
  else
    match store.get_current_user with
    | none => .error "panicked: unwrap on None"
    | some user_hash =>
      match alist.get user_hash store.auth_stores with
      | none => .error "User store not found"
      | some ustore =>
        match alist.get entity_name ustore.entities with
        | none => .error ("Entity not found: " ++ entity_name)
        | some (.set s) =>
          .ok (if s.contains key then some (.simpleString key) else none)
        | some (.hashMap m) => .ok ((alist.get key m).map Prod.fst)
        | some (.linkedList l) =>
          .ok (if l.contains key then some (.simpleString key) else none)

/-- Removal of the first occurrence of a string from a list (the
pop-front/push-back filtering loop of the `LinkedList` arm of
`entity_delete`). -/
def removeFirst (key : String) : List String → List String
  | [] => []
  | x :: rest => if x = key then rest else x :: removeFirst key rest

/-- Model of `MemoryStore::entity_delete`. -/
def MemoryStore.entity_delete (store : MemoryStore) (entity_name key : String) :
    Except String (Option Value × MemoryStore) :=
  if ¬ store.is_authenticated then .error "Authentication required"
  else
    match store.get_current_user with
    | none => .error "panicked: unwrap on None"
    | some user_hash =>
      match alist.get user_hash store.auth_stores with
      | none => .error "User store not found"
      | some ustore =>
        match alist.get entity_name ustore.entities with
        | none => .error ("Entity not found: " ++ entity_name)
        | some (.set s) =>
          let removed := s.contains key
          .ok (if removed then some (.simpleString key) else none,
            store.updateUser user_hash
              ⟨alist.insert entity_name (.set (removeFirst key s)) ustore.entities⟩)
        | some (.hashMap m) =>
          .ok ((alist.get key m).map Prod.fst,
            store.updateUser user_hash
              ⟨alist.insert entity_name (.hashMap (alist.remove key m)) ustore.entities⟩)
        | some (.linkedList l) =>
          let removed := l.contains key
          .ok (if removed then some (.simpleString key) else none,
            store.updateUser user_hash
              ⟨alist.insert entity_name (.linkedList (removeFirst key l)) ustore.entities⟩)

/-- Model of `MemoryStore::set`: dotted keys route to `entity_add` on the
split parts; otherwise the pair `(value, args)` is inserted at `key` into the
(lazily created) `default` `HashMap` entity. -/
def MemoryStore.set (store : MemoryStore) (key : String) (value : Value) (args : OptsMap) :
    Except String MemoryStore :=
  if ¬ store.is_authenticated then .error "Authentication required"
  else if containsDot key then
    store.entity_add (splitFirstDot key).1 (splitFirstDot key).2 value
  else
    match store.get_current_user with
    | none => .error "panicked: unwrap on None"
    | some user_hash =>
      match alist.get user_hash store.auth_stores with
      | none => .error "panicked: unwrap on None"
      | some ustore =>
        let entities1 :=
          if alist.containsKey "default" ustore.entities then ustore.entities
          else alist.insert "default" (.hashMap []) ustore.entities
        match alist.get "default" entities1 with
        | some (.hashMap m) =>
          .ok (store.updateUser user_hash
            ⟨alist.insert "default" (.hashMap (alist.insert key (value, args) m)) entities1⟩)
        | _ => .error "Default map corrupted"

/-- Model of `MemoryStore::get` (read-only): dotted keys route to
`entity_get` (errors turned into `none`); otherwise the `default` `HashMap`
is consulted at the literal key.  No expiration logic exists in the source:
the stored options are never read. -/
def MemoryStore.get (store : MemoryStore) (key : String) : Option Value :=
  if ¬ store.is_authenticated then none
  else if containsDot key then
    match store.entity_get (splitFirstDot key).1 (splitFirstDot key).2 with
    | .ok v => v
    | .error _ => none
  else
    match store.get_current_user with
    | none => none
    | some user_hash =>
      match alist.get user_hash store.auth_stores with
      | none => none
      | some ustore =>
        match alist.get "default" ustore.entities with
        | some (.hashMap m) => (alist.get key m).map Prod.fst
        | _ => none

/-- Model of `MemoryStore::delete`: dotted keys route to `entity_delete`
(errors turned into `none` with the store unchanged); otherwise the entry is
removed from the `default` `HashMap`. -/
def MemoryStore.delete (store : MemoryStore) (key : String) : Option Value × MemoryStore :=
  if ¬ store.is_authenticated then (none, store)
  else if containsDot key then
    match store.entity_delete (splitFirstDot key).1 (splitFirstDot key).2 with
    | .ok (v, store') => (v, store')
    | .error _ => (none, store)
  else
    match store.get_current_user with
    | none => (none, store)
    | some user_hash =>
      match alist.get user_hash store.auth_stores with
      | none => (none, store)
      | some ustore =>
        match alist.get "default" ustore.entities with
        | some (.hashMap m) =>
          ((alist.get key m).map Prod.fst,
            store.updateUser user_hash
              ⟨alist.insert "default" (.hashMap (alist.remove key m)) ustore.entities⟩)
        | _ => (none, store)

/-! ### String rendering helpers used by the command layer -/

/-- Rendering of one byte as two lowercase hex digits, as Rust's `{:x}`
formatting of a digest does per byte (zero-padded). -/
def hexByte (b : Nat) : List Char :=
  let hexDigit : Nat → Char := fun n =>
    if n < 10 then Char.ofNat (48 + n) else Char.ofNat (87 + n)
  [hexDigit (b / 16 % 16), hexDigit (b % 16)]

/-- Lowercase hex rendering of a byte list, as produced by
`format!("{:x}", hasher.finalize())` in `auth.rs`, `whoami.rs` and `db.rs`. -/
def hexLower (bs : List Nat) : String := ⟨bs.foldr (fun b acc => hexByte b ++ acc) []⟩

/-- Decimal `Display` rendering of a natural number as a `String`. -/
def natToString (n : Nat) : String := ⟨(natToDec n).map Char.ofNat⟩

/-- Model of `i64::to_string`. -/
def intToString (i : Int) : String :=
  if i < 0 then "-" ++ natToString (-i).toNat else natToString i.toNat

/-- Model of `bool::to_string`. -/
def boolToString (b : Bool) : String := if b then "true" else "false"

/-- Is the character an ASCII decimal digit? -/
def charIsDigit (c : Char) : Bool := 48 ≤ c.toNat && c.toNat ≤ 57

/-- Numeric value of a big-endian list of ASCII digit characters. -/
def decValueChars (cs : List Char) : Nat := cs.foldl (fun a c => a * 10 + (c.toNat - 48)) 0

/-- Model of `str::parse::<u64>`: an optional `+` sign, then at least one
ASCII digit, value below `2^64`. -/
def parseU64 (s : String) : Option Nat :=
  let cs := match s.toList with
    | '+' :: rest => rest
    | cs => cs
  if cs = [] then none
  else if ¬ cs.all charIsDigit then none
  else if decValueChars cs < 2 ^ 64 then some (decValueChars cs) else none

/-! ### Command handlers (`src/commands/**`, the revisions dispatched by
`src/commands/executor.rs`)

Handlers that mutate the store return the new store next to the reply; the
executor threads it.  `AUTH` and `WHOAMI` take the persisted users table as a
list of `(username, stored_digest)` rows in insertion order, and the digest
function `K` (Keccak-256 of the `sha3` crate, external to this repository) as
a parameter mapping a string to its digest bytes. -/

/-- Model of `PingCommand::execute`. -/
def PingCommand.execute (args : List String) : Except String Value :=
  match args with
  | [] => .ok (.simpleString "PONG")
  | a :: _ => .ok (.bulkString a)

/-- Model of `EchoCommand::execute`: echoes the first argument; the joined
`message` is only consulted when `args` is empty, where it is also empty, so
the command errors. -/
def EchoCommand.execute (args : List String) : Except String Value :=
  let message := String.intercalate " " args
  match args with
  | a :: _ => .ok (.bulkString a)
  | [] =>
    if message ≠ "" then .ok (.bulkString message)
    else .error "ECHO requires at least one argument"

/-- Model of `HelpCommand::execute` (the fixed help text; the Rust string
continuations swallow the indentation). -/
def HelpCommand.execute (_args : List String) : Except String Value :=
  .ok (.bulkString ("Available commands:\nPING - Test connection\n" ++
    "ECHO <message> - Echo back a message\nGET <key> - Get value for key\n" ++
    "SET <key> <value> - Set key to value\nDEL <key> [<key> ...] - Delete keys\n" ++
    "HELP - Show this help"))

/-- Model of `GetCommand::execute` (`src/commands/general/get.rs`). -/
def GetCommand.execute (args : List String) (store : MemoryStore) : Except String Value :=
  if ¬ store.is_authenticated then .error "Authentication required"
  else
    match args with
    | [] => .error "GET requires a key"
    | key :: _ =>
      match store.get key with
      | some v => .ok v
      | none => .error ("Key " ++ key ++ " not found")

/-- The modifier loop of `SetCommand::execute`: scans the arguments after the
value left to right; `EX`/`PX` take the following argument as a `u64` (a
parse failure is an error; a missing following argument is silently skipped);
`NX`, `XX` and unknown modifiers are ignored. -/
def parseSetOptions : List String → OptsMap → Except String OptsMap
  | [], acc => .ok acc
  | arg :: rest, acc =>
    if strToUpper arg = "EX" then
      match rest with
      | [] => .ok acc
      | exp :: rest2 =>
        match parseU64 exp with
        | some e => parseSetOptions rest2 (OptsMap.insert .ex e acc)
        | none => .error ("Invalid expiration value: " ++ exp)
    else if strToUpper arg = "PX" then
      match rest with
      | [] => .ok acc
      | exp :: rest2 =>
        match parseU64 exp with
        | some e => parseSetOptions rest2 (OptsMap.insert .px e acc)
        | none => .error ("Invalid expiration value: " ++ exp)
    else parseSetOptions rest acc

/-- Model of `SetCommand::execute` (`src/commands/general/set.rs`): the value
written is `orig_args[1]` when available (type-preserving), else the string
argument wrapped as a `SimpleString`; the parsed options are handed to
`MemoryStore::set` (which never reads them back). -/
def SetCommand.execute (args : List String) (store : MemoryStore) (orig_args : List Value) :
    Except String (Value × MemoryStore) :=
  if ¬ store.is_authenticated then .error "Authentication required"
  else
    match args with
    | key :: arg1 :: restArgs =>
      let value := match orig_args with
        | _ :: v :: _ => v
        | _ => .simpleString arg1
      match parseSetOptions restArgs [] with
      | .error e => .error e
      | .ok extra_args =>
        match store.set key value extra_args with
        | .error e => .error e
        | .ok store' => .ok (.simpleString "OK", store')
    | _ => .error "SET requires a key and a value"

/-- The key loop of `DeleteCommand::execute`: for each key, `delete` is
called only when `get` finds a value. -/
def delLoop : List String → MemoryStore → MemoryStore
  | [], store => store
  | key :: rest, store =>
    match store.get key with
    | some _ => delLoop rest (store.delete key).2
    | none => delLoop rest store

/-- Model of `DeleteCommand::execute` (`src/commands/general/delete.rs`).
Note the source has no authentication check and replies with the number of
argument keys, not the number of deletions. -/
def DeleteCommand.execute (args : List String) (store : MemoryStore) :
    Except String (Value × MemoryStore) :=
  if args = [] then .error "DEL requires at least one key"
  else .ok (.integer (args.length : Int), delLoop args store)

/-- Model of `AuthCommand::execute` (`src/commands/acl/auth.rs`): hashes the
password, looks the user up, and on a digest match derives the credential
hash `hex(K(username ++ ":" ++ stored_digest))` and stores it as the current
user; both failure cases return the same error text. -/
def AuthCommand.execute (K : String → List Nat) (args : List String) (store : MemoryStore)
    (db : List (String × String)) : Except String (Value × MemoryStore) :=
  match args with
  | username :: password :: _ =>
    let password_hash := hexLower (K password)
    match alist.get username db with
    | some db_password =>
      if db_password = password_hash then
        let credential_hash := hexLower (K (username ++ ":" ++ db_password))
        .ok (.simpleString "OK", store.set_current_user (some credential_hash))
      else .error "Invalid username or password"
    | none => .error "Invalid username or password"
  | _ => .error "AUTH requires username and password"

/-- The row loop of `WhoAmi::execute`: for each username of the table, the
stored digest is fetched again (`SELECT password FROM users WHERE username =
?` returns the first matching row) and the credential hash is recomputed and
compared with the session's. -/
def whoamiLoop (K : String → List Nat) (db : List (String × String)) (current_hash : String) :
    List (String × String) → Except String Value
  | [] => .error "User not found in database"
  | (username, _) :: rest =>
    match alist.get username db with
    | none => .error "query returned no rows"
    | some password =>
      if hexLower (K (username ++ ":" ++ password)) = current_hash then
        .ok (.bulkString ("Current user: " ++ username ++ " (" ++ current_hash ++ ")"))
      else whoamiLoop K db current_hash rest

/-- Model of `WhoAmi::execute` (`src/commands/acl/whoami.rs`).  Note the
unauthenticated error text is `Not authenticated`. -/
def WhoAmi.execute (K : String → List Nat) (store : MemoryStore)
    (db : List (String × String)) : Except String Value :=
  if ¬ store.is_authenticated then .error "Not authenticated"
  else
    match store.get_current_user with
    | none => .error "panicked: unwrap on None"
    | some current_hash => whoamiLoop K db current_hash db

/-- The argument coercion of `CommandExecutor::execute` (`Value` to
`String`). -/
def valueToStringArg : Value → String
  | .simpleString s => s
  | .bulkString s => s
  | .integer i => intToString i
  | .boolean b => boolToString b
  | _ => ""

/-- Model of `CommandExecutor::execute` (`src/commands/executor.rs`): routes
an upper-cased command name to its handler, passing string-coerced arguments;
the resulting store is threaded (unchanged for read-only handlers). -/
def CommandExecutor.execute (K : String → List Nat) (command : String) (args : List Value)
    (store : MemoryStore) (db : List (String × String)) :
    Except String Value × MemoryStore :=
  let string_args := args.map valueToStringArg
  match command with
  | "PING" => (PingCommand.execute string_args, store)
  | "HELP" => (HelpCommand.execute string_args, store)
  | "ECHO" => (EchoCommand.execute string_args, store)
  | "GET" => (GetCommand.execute string_args store, store)
  | "SET" =>
    match SetCommand.execute string_args store args with
    | .ok (v, store') => (.ok v, store')
    | .error e => (.error e, store)
  | "DEL" =>
    match DeleteCommand.execute string_args store with
    | .ok (v, store') => (.ok v, store')
    | .error e => (.error e, store)
  | "AUTH" =>
    match AuthCommand.execute K string_args store db with
    | .ok (v, store') => (.ok v, store')
    | .error e => (.error e, store)
  | "WHOAMI" => (WhoAmi.execute K store db, store)
  | _ => (.error ("Unknown command: " ++ command), store)

/-- The reply formatting of the connection loop
(`NetworkUtils::accept_connection`): handler errors become
`Value::Error("ERR " + message)`. -/
def formatResult (r : Except String Value) : Value :=
  match r with
  | .ok v => v
  | .error e => .error ("ERR " ++ e)

/-- Model of the user seeding of `InternalDB::create_user` (`db.rs`): an
`INSERT` of `(username, hex(K(plaintext)))` whose unique-constraint violation
is treated as success without overwriting. -/
def dbInsertUser (K : String → List Nat) (db : List (String × String))
    (username plaintext : String) : List (String × String) :=
  if alist.containsKey username db then db else db ++ [(username, hexLower (K plaintext))]

/-- Observation helper: the entry stored under the literal key `k` in the
current identity's `default` `HashMap` entity. -/
def defaultEntry (s : MemoryStore) (k : String) : Option (Value × OptsMap) :=
  match s.current_user with
  | none => none
  | some uh =>
    match alist.get uh s.auth_stores with
    | none => none
    | some ust =>
      match alist.get "default" ust.entities with
      | some (.hashMap m) => alist.get k m
      | _ => none

/-- The state invariant of the spec: `current_identity` is either null or an
identity that has a `UserStore` in the `MemoryStore`. -/
def MemoryStore.identityInvariant (s : MemoryStore) : Prop :=
  ∀ h, s.current_user = some h → alist.containsKey h s.auth_stores = true

end KV

/-! ## Connection handles (`#[derive(Clone)] MemoryStore` and `main.rs`)

Cloning the Rust `MemoryStore` clones two `Arc`s, so a clone is a second
handle onto the same two cells.  The cells live in a small heap; a handle is
a pair of cell indices, and `Clone::clone` copies the indices. -/

namespace Session

/-- A `MemoryStore` value as a pair of `Arc` pointers: indices of the
`auth_stores` cell and of the `current_user` cell. -/
structure StoreHandle where
  auth_stores_ref : Nat
  current_user_ref : Nat

/-- The heap holding the pointed-to cells. -/
structure Heap where
  auth_cells : List (List (String × KV.UserStore))
  cur_cells : List (Option String)

/-- The empty heap (process start). -/
def Heap.empty : Heap := ⟨[], []⟩

/-- Model of `MemoryStore::new` as performed once in `main`: allocates the
two cells (`HashMap::new()` and `None`). -/
def Heap.newStore (h : Heap) : StoreHandle × Heap :=
  (⟨h.auth_cells.length, h.cur_cells.length⟩,
   ⟨h.auth_cells ++ [[]], h.cur_cells ++ [none]⟩)

/-- Model of `memory_store.clone()` as performed per accepted connection in
`main`: `#[derive(Clone)]` clones the `Arc`s, i.e. copies the pointers. -/
def StoreHandle.clone (s : StoreHandle) : StoreHandle := s

/-- Model of `MemoryStore::set_current_user` acting through a handle. -/
def Heap.set_current_user (h : Heap) (s : StoreHandle) (user_hash : Option String) : Heap :=
  let h1 : Heap := ⟨h.auth_cells, h.cur_cells.set s.current_user_ref user_hash⟩
  match user_hash with
  | some hash =>
    let cell := (h1.auth_cells.get? s.auth_stores_ref).getD []
    if KV.alist.containsKey hash cell then h1
    else ⟨h1.auth_cells.set s.auth_stores_ref (KV.alist.insert hash ⟨[]⟩ cell), h1.cur_cells⟩
  | none => h1

/-- Model of `MemoryStore::get_current_user` acting through a handle. -/
def Heap.get_current_user (h : Heap) (s : StoreHandle) : Option String :=
  (h.cur_cells.get? s.current_user_ref).getD none

/-- Model of `MemoryStore::is_authenticated` acting through a handle. -/
def Heap.is_authenticated (h : Heap) (s : StoreHandle) : Bool :=
  (h.get_current_user s).isSome

end Session

/-! ## Helper lemmas: decimal rendering round-trips, CRLF scanning, UTF-8 -/

theorem natToDecAux_digit_bounds : ∀ (fuel n : Nat), ∀ d ∈ natToDecAux fuel n, 48 ≤ d ∧ d ≤ 57 := by
  intro fuel
  induction fuel with
  | zero => intro n d hd; simp [natToDecAux] at hd
  | succ fuel ih =>
    intro n d hd
    rw [natToDecAux] at hd
    by_cases h0 : n = 0
    · simp [h0] at hd
    · rw [if_neg h0] at hd
      rcases List.mem_append.mp hd with h | h
      · exact ih _ d h
      · have h9 : n % 10 ≤ 9 := by omega
        simp at h
        omega

theorem natToDecAux_foldl : ∀ (fuel n a : Nat), n ≤ fuel →
    List.foldl (fun a d => a * 10 + (d - 48)) a (natToDecAux fuel n) =
      a * 10 ^ (natToDecAux fuel n).length + n := by
  intro fuel
  induction fuel with
  | zero =>
    intro n a h
    have h0 : n = 0 := by omega
    subst h0
    simp [natToDecAux]
  | succ fuel ih =>
    intro n a h
    by_cases h0 : n = 0
    · subst h0; simp [natToDecAux]
    · rw [natToDecAux, if_neg h0, List.foldl_append, ih (n / 10) a (by omega),
        List.length_append]
      simp only [List.foldl_cons, List.foldl_nil, List.length_cons, List.length_nil]
      have hadd : n % 10 + 48 - 48 = n % 10 := by omega
      rw [hadd, pow_succ, ← mul_assoc]
      generalize a * 10 ^ (natToDecAux fuel (n / 10)).length = Q
      omega

theorem natToDec_digit_bounds (n : Nat) : ∀ d ∈ natToDec n, 48 ≤ d ∧ d ≤ 57 := by
  intro d hd
  rw [natToDec] at hd
  by_cases h0 : n = 0
  · simp [h0] at hd; omega
  · rw [if_neg h0] at hd; exact natToDecAux_digit_bounds n n d hd

theorem natToDec_ne_nil (n : Nat) : natToDec n ≠ [] := by
  rw [natToDec]
  by_cases h0 : n = 0
  · simp [h0]
  · rw [if_neg h0]
    cases n with
    | zero => exact absurd rfl h0
    | succ m =>
      rw [natToDecAux]
      simp

theorem decValue_natToDec (n : Nat) : decValue (natToDec n) = n := by
  rw [decValue, natToDec]
  by_cases h0 : n = 0
  · simp [h0]
  · rw [if_neg h0, natToDecAux_foldl n n 0 (le_refl n)]
    simp

theorem all_isDigit_of_bounds (ds : List Nat) (h : ∀ d ∈ ds, 48 ≤ d ∧ d ≤ 57) :
    ds.all isDigit = true := by
  rw [List.all_eq_true]
  intro d hd
  have := h d hd
  simp [isDigit]
  omega

theorem splitSign_digit (d : Nat) (ds' : List Nat) (h43 : ¬ d = 43) (h45 : ¬ d = 45) :
    splitSign (d :: ds') = (1, d :: ds') := by
  simp [splitSign, h43, h45]

theorem splitSign_neg (X : List Nat) : splitSign (45 :: X) = (-1, X) := by
  simp [splitSign]

theorem parseI64_eq_ok_of_digits (ds : List Nat) (hne : ds ≠ [])
    (hdig : ∀ d ∈ ds, 48 ≤ d ∧ d ≤ 57) (hlt : decValue ds < 2 ^ 63) :
    parseI64 ds = .ok (decValue ds) := by
  obtain ⟨d, ds', rfl⟩ : ∃ d ds', ds = d :: ds' := by
    cases ds with
    | nil => exact absurd rfl hne
    | cons d ds' => exact ⟨d, ds', rfl⟩
  have hd := hdig d (List.mem_cons_self d ds')
  simp only [parseI64, splitSign_digit d ds' (by omega) (by omega)]
  rw [if_neg (by simp : ¬ (d :: ds') = [])]
  rw [if_neg (by simp [all_isDigit_of_bounds (d :: ds') hdig])]
  rw [if_neg ?hbound]
  case hbound =>
    push_neg
    simp only [one_mul]
    have h0 : (0 : Int) ≤ (decValue (d :: ds') : Int) := Int.natCast_nonneg _
    have hlt' : (decValue (d :: ds') : Int) < 2 ^ 63 := by exact_mod_cast hlt
    omega
  simp

theorem parseI64_natToDec (n : Nat) (h : n < 2 ^ 63) : parseI64 (natToDec n) = .ok n := by
  rw [parseI64_eq_ok_of_digits (natToDec n) (natToDec_ne_nil n) (natToDec_digit_bounds n)
    (by rw [decValue_natToDec]; exact h), decValue_natToDec]

theorem parseI64_intToDec (i : Int) (h1 : -(2 ^ 63) ≤ i) (h2 : i < 2 ^ 63) :
    parseI64 (intToDec i) = .ok i := by
  rw [intToDec]
  by_cases hneg : i < 0
  · rw [if_pos hneg]
    have hmn : ((-i).toNat : Int) = -i := Int.toNat_of_nonneg (by omega)
    have hne := natToDec_ne_nil (-i).toNat
    have hdig := natToDec_digit_bounds (-i).toNat
    have hval : decValue (natToDec (-i).toNat) = (-i).toNat := decValue_natToDec _
    simp only [parseI64, splitSign_neg]
    rw [if_neg hne]
    rw [if_neg (by simp [all_isDigit_of_bounds _ hdig])]
    rw [if_neg ?hb]
    case hb =>
      push_neg
      rw [hval]
      constructor
      · rw [hmn]; omega
      · have : (0 : Int) ≤ ((-i).toNat : Int) := Int.natCast_nonneg _
        omega
    rw [hval, hmn]
    simp
  · rw [if_neg hneg]
    have : (i.toNat : Int) = i := Int.toNat_of_nonneg (by omega)
    rw [parseI64_natToDec i.toNat (by omega), this]

theorem natToDec_not_mem_13 (n : Nat) : 13 ∉ natToDec n := by
  intro h
  have := natToDec_digit_bounds n 13 h
  omega

theorem natToDec_ascii (n : Nat) : ∀ d ∈ natToDec n, d ≤ 127 := by
  intro d hd
  have := natToDec_digit_bounds n d hd
  omega

theorem intToDec_not_mem_13 (i : Int) : 13 ∉ intToDec i := by
  intro h
  rw [intToDec] at h
  by_cases hneg : i < 0
  · rw [if_pos hneg] at h
    rcases List.mem_cons.mp h with h | h
    · omega
    · exact natToDec_not_mem_13 _ h
  · rw [if_neg hneg] at h
    exact natToDec_not_mem_13 _ h

theorem intToDec_ascii (i : Int) : ∀ d ∈ intToDec i, d ≤ 127 := by
  intro d hd
  rw [intToDec] at hd
  by_cases hneg : i < 0
  · rw [if_pos hneg] at hd
    rcases List.mem_cons.mp hd with h | h
    · omega
    · have := natToDec_digit_bounds _ d h; omega
  · rw [if_neg hneg] at hd
    have := natToDec_digit_bounds _ d hd; omega

theorem utf8Valid_cons_ascii (b : Nat) (s : List Nat) (hb : b ≤ 127) :
    utf8Valid (b :: s) = utf8Valid s := by
  conv_lhs => rw [utf8Valid.eq_def]
  simp [hb]

theorem utf8Valid_of_ascii : ∀ (s : List Nat), (∀ b ∈ s, b ≤ 127) → utf8Valid s = true := by
  intro s
  induction s with
  | nil => intro _; rfl
  | cons b s ih =>
    intro h
    rw [utf8Valid_cons_ascii b s (h b (List.mem_cons_self b s))]
    exact ih fun x hx => h x (List.mem_cons_of_mem b hx)

namespace Resp

namespace RespParser

theorem read_until_crlf_append (s t : List Nat) (h : 13 ∉ s) :
    read_until_crlf (s ++ 13 :: 10 :: t) = some (s, s.length + 2) := by
  induction s with
  | nil =>
    rw [List.nil_append, read_until_crlf, if_pos ⟨rfl, rfl⟩]
    rfl
  | cons a s ih =>
    have ha : ¬ (a = 13) := fun hh => h (hh ▸ List.mem_cons_self a s)
    have h' : 13 ∉ s := fun hh => h (List.mem_cons_of_mem a hh)
    cases s with
    | nil =>
      rw [List.nil_append] at ih
      show read_until_crlf (a :: 13 :: 10 :: t) = some ([a], 3)
      rw [read_until_crlf]
      rw [if_neg (by omega)]
      rw [ih h']
      rfl
    | cons b s' =>
      show read_until_crlf (a :: ((b :: s') ++ 13 :: 10 :: t)) =
        some (a :: b :: s', (b :: s').length + 3)
      rw [List.cons_append]
      rw [read_until_crlf]
      rw [if_neg (by exact fun hc => ha hc.1)]
      rw [← List.cons_append, ih h']
      simp [List.length_cons]

end RespParser

end Resp

end RustyKV
namespace RustyKV

theorem asUsize_natCast (n : Nat) (h : n < 2 ^ 64) : asUsize (n : Int) = n := by
  rw [asUsize, Int.emod_eq_of_lt (Int.natCast_nonneg n) (by exact_mod_cast h)]
  exact Int.toNat_natCast n

namespace Resp

namespace RespParser

theorem parse_bulk_ok (ds payload : List Nat) (t1 t2 : Nat) (rest : List Nat)
    (hne : ds ≠ []) (hdig : ∀ d ∈ ds, 48 ≤ d ∧ d ≤ 57)
    (hlt : decValue ds < 2 ^ 63) (hutf : utf8Valid payload = true)
    (hplen : payload.length = decValue ds) :
    parse_bulk_string (36 :: (ds ++ 13 :: 10 :: (payload ++ t1 :: t2 :: rest))) =
      .ok (some (.bulkString payload, ds.length + payload.length + 5)) := by
  have h13 : 13 ∉ ds := fun h => by have := hdig 13 h; omega
  have h2 : read_until_crlf ((36 :: (ds ++ 13 :: 10 :: (payload ++ t1 :: t2 :: rest))).drop 1) =
      some (ds, ds.length + 2) := read_until_crlf_append ds _ h13
  have h3 : parse_int ds = .ok ((decValue ds : Int)) :=
    parseI64_eq_ok_of_digits ds hne hdig hlt
  have h4 : ¬ ((decValue ds : Int) = -1) := by
    have : (0 : Int) ≤ (decValue ds : Int) := Int.natCast_nonneg _
    omega
  have h5 : asUsize ((decValue ds : Int)) = decValue ds := asUsize_natCast _ (by omega)
  have h6 : ¬ ((36 :: (ds ++ 13 :: 10 :: (payload ++ t1 :: t2 :: rest))).length <
      ds.length + payload.length + 5) := by
    simp only [List.length_cons, List.length_append]
    omega
  have h7 : (36 :: (ds ++ 13 :: 10 :: (payload ++ t1 :: t2 :: rest))).drop (1 + (ds.length + 2)) =
      payload ++ t1 :: t2 :: rest := by
    rw [show 1 + (ds.length + 2) = (ds.length + 2) + 1 by omega]
    rw [List.drop_succ_cons]
    rw [show ds ++ 13 :: 10 :: (payload ++ t1 :: t2 :: rest) =
      (ds ++ [13, 10]) ++ (payload ++ t1 :: t2 :: rest) by simp]
    exact List.drop_left' (by simp)
  have h8 : (payload ++ t1 :: t2 :: rest).take (decValue ds) = payload :=
    List.take_left' hplen
  have harith : 1 + (ds.length + 2) + decValue ds + 2 = ds.length + payload.length + 5 := by
    omega
  simp only [parse_bulk_string, h2, h3, h4, if_false, h5, harith, h6, h7, h8, hutf, if_true]

theorem parse_bulk_bad_utf8 (ds payload : List Nat) (t1 t2 : Nat) (rest : List Nat)
    (hne : ds ≠ []) (hdig : ∀ d ∈ ds, 48 ≤ d ∧ d ≤ 57)
    (hlt : decValue ds < 2 ^ 63) (hutf : utf8Valid payload = false)
    (hplen : payload.length = decValue ds) :
    parse_bulk_string (36 :: (ds ++ 13 :: 10 :: (payload ++ t1 :: t2 :: rest))) =
      .error "invalid utf-8" := by
  have h13 : 13 ∉ ds := fun h => by have := hdig 13 h; omega
  have h2 : read_until_crlf ((36 :: (ds ++ 13 :: 10 :: (payload ++ t1 :: t2 :: rest))).drop 1) =
      some (ds, ds.length + 2) := read_until_crlf_append ds _ h13
  have h3 : parse_int ds = .ok ((decValue ds : Int)) :=
    parseI64_eq_ok_of_digits ds hne hdig hlt
  have h4 : ¬ ((decValue ds : Int) = -1) := by
    have : (0 : Int) ≤ (decValue ds : Int) := Int.natCast_nonneg _
    omega
  have h5 : asUsize ((decValue ds : Int)) = decValue ds := asUsize_natCast _ (by omega)
  have h6 : ¬ ((36 :: (ds ++ 13 :: 10 :: (payload ++ t1 :: t2 :: rest))).length <
      1 + (ds.length + 2) + decValue ds + 2) := by
    simp only [List.length_cons, List.length_append]
    omega
  have h7 : (36 :: (ds ++ 13 :: 10 :: (payload ++ t1 :: t2 :: rest))).drop (1 + (ds.length + 2)) =
      payload ++ t1 :: t2 :: rest := by
    rw [show 1 + (ds.length + 2) = (ds.length + 2) + 1 by omega]
    rw [List.drop_succ_cons]
    rw [show ds ++ 13 :: 10 :: (payload ++ t1 :: t2 :: rest) =
      (ds ++ [13, 10]) ++ (payload ++ t1 :: t2 :: rest) by simp]
    exact List.drop_left' (by simp)
  have h8 : (payload ++ t1 :: t2 :: rest).take (decValue ds) = payload :=
    List.take_left' hplen
  simp only [parse_bulk_string, h2, h3, h4, if_false, h5, h6, h7, h8, hutf,
    Bool.false_eq_true]

end RespParser

end Resp

end RustyKV
namespace RustyKV

namespace Resp

theorem wellFormedList_mem (vs : List Value) (h : wellFormedList vs = true) :
    ∀ v ∈ vs, v.wellFormed = true := by
  induction vs with
  | nil => intro v hv; simp at hv
  | cons w vs ih =>
    rw [wellFormedList, Bool.and_eq_true] at h
    intro v hv
    rcases List.mem_cons.mp hv with rfl | hv
    · exact h.1
    · exact ih h.2 v hv

theorem depth_le_depthList (vs : List Value) : ∀ v ∈ vs, v.depth ≤ depthList vs := by
  induction vs with
  | nil => intro v hv; simp at hv
  | cons w vs ih =>
    intro v hv
    rw [depthList]
    rcases List.mem_cons.mp hv with rfl | hv
    · exact le_max_left _ _
    · exact le_trans (ih v hv) (le_max_right _ _)

theorem Value.depth_pos (V : Value) : 1 ≤ V.depth := by
  cases V <;> simp [Value.depth]

theorem serializeList_length_cons (v : Value) (vs : List Value) :
    (serializeList (v :: vs)).length = v.serialize.length + (serializeList vs).length := by
  rw [serializeList, List.length_append]

namespace RespParser

theorem parse_elems_append
    (pm : List Nat → Except String (Option (Value × Nat)))
    (vs : List Value)
    (hpm : ∀ v ∈ vs, ∀ r : List Nat, pm (v.serialize ++ r) = .ok (some (v, v.serialize.length))) :
    ∀ (buf : List Nat) (total_len : Nat) (acc : List Value) (rest : List Nat),
      buf.drop total_len = serializeList vs ++ rest →
      parse_elems pm buf vs.length total_len acc =
        .ok (some (.array (acc ++ vs), total_len + (serializeList vs).length)) := by
  induction vs with
  | nil =>
    intro buf total_len acc rest hdrop
    simp [parse_elems, serializeList]
  | cons v vs ih =>
    intro buf total_len acc rest hdrop
    have hv : pm (buf.drop total_len) = .ok (some (v, v.serialize.length)) := by
      rw [hdrop, serializeList, List.append_assoc]
      exact hpm v (List.mem_cons_self v vs) _
    have hdrop' : buf.drop (total_len + v.serialize.length) = serializeList vs ++ rest := by
      rw [← List.drop_drop, hdrop, serializeList, List.append_assoc]
      exact List.drop_left' rfl
    have hrec := ih (fun w hw r => hpm w (List.mem_cons_of_mem v hw) r) buf
      (total_len + v.serialize.length) (acc ++ [v]) rest hdrop'
    show parse_elems pm buf (vs.length + 1) total_len acc = _
    rw [parse_elems, hv]
    show parse_elems pm buf vs.length (total_len + v.serialize.length) (acc ++ [v]) = _
    rw [hrec, ← List.append_cons acc v vs, serializeList_length_cons, Nat.add_assoc]

end RespParser

end Resp

end RustyKV
namespace RustyKV

namespace Resp

namespace RespParser

theorem parse_line_frame (m : Nat) (s t : List Nat) (h13 : 13 ∉ s)
    (hutf : utf8Valid s = true) :
    parse_line (m :: (s ++ 13 :: 10 :: t)) 1 = .ok (s, s.length + 3) := by
  have h2 := read_until_crlf_append s t h13
  have harith : 1 + (s.length + 2) = s.length + 3 := by omega
  simp only [parse_line, List.drop_succ_cons, List.drop_zero, h2, hutf, if_true, harith]

theorem parse_messageF_serialize : ∀ (fuel : Nat) (V : Value) (rest : List Nat),
    V.wellFormed = true → V.depth ≤ fuel →
    parse_messageF fuel (V.serialize ++ rest) = .ok (some (V, V.serialize.length)) := by
  intro fuel
  induction fuel with
  | zero =>
    intro V rest _ hd
    have := Value.depth_pos V
    omega
  | succ fuel ih =>
    intro V rest hwf hd
    rw [parse_messageF]
    cases V with
    | null =>
      have h2 : read_until_crlf ([45, 49] ++ 13 :: 10 :: rest) = some ([45, 49], 4) :=
        read_until_crlf_append [45, 49] rest (by decide)
      have h3 : parse_int [45, 49] = .ok (-1) := rfl
      show dispatch (parse_messageF fuel) ([36, 45, 49, 13, 10] ++ rest) = _
      simp only [List.cons_append, List.nil_append, dispatch]
      norm_num
      simp only [parse_bulk_string, List.drop_succ_cons, List.drop_zero, show
        ([45, 49, 13, 10] : List Nat) ++ rest = [45, 49] ++ 13 :: 10 :: rest from rfl,
        h2, h3, if_pos rfl]
      rfl
    | simpleString s =>
      rw [Value.wellFormed] at hwf
      simp only [Bool.and_eq_true, decide_eq_true_eq] at hwf
      obtain ⟨⟨hutf, h13⟩, _⟩ := hwf
      show dispatch (parse_messageF fuel) ((43 :: (s ++ [13, 10])) ++ rest) = _
      have hshape : (43 :: (s ++ [13, 10])) ++ rest = 43 :: (s ++ 13 :: 10 :: rest) := by
        simp
      rw [hshape, dispatch]
      norm_num
      rw [parse_simple_string, parse_line_frame 43 s rest h13 hutf]
      show _ = Except.ok (some (Value.simpleString s, (43 :: (s ++ [13, 10])).length))
      simp [List.length_cons, List.length_append]
    | error s =>
      rw [Value.wellFormed] at hwf
      simp only [Bool.and_eq_true, decide_eq_true_eq] at hwf
      obtain ⟨⟨hutf, h13⟩, _⟩ := hwf
      show dispatch (parse_messageF fuel) ((45 :: (s ++ [13, 10])) ++ rest) = _
      have hshape : (45 :: (s ++ [13, 10])) ++ rest = 45 :: (s ++ 13 :: 10 :: rest) := by
        simp
      rw [hshape, dispatch]
      norm_num
      rw [parse_error, parse_line_frame 45 s rest h13 hutf]
      show _ = Except.ok (some (Value.error s, (45 :: (s ++ [13, 10])).length))
      simp [List.length_cons, List.length_append]
    | integer i =>
      rw [Value.wellFormed] at hwf
      simp only [Bool.and_eq_true, decide_eq_true_eq] at hwf
      obtain ⟨h1, h2⟩ := hwf
      have hutf : utf8Valid (intToDec i) = true := utf8Valid_of_ascii _ (intToDec_ascii i)
      show dispatch (parse_messageF fuel) ((58 :: (intToDec i ++ [13, 10])) ++ rest) = _
      have hshape : (58 :: (intToDec i ++ [13, 10])) ++ rest =
          58 :: (intToDec i ++ 13 :: 10 :: rest) := by simp
      rw [hshape, dispatch]
      norm_num
      simp only [parse_integer, parse_line_frame 58 (intToDec i) rest (intToDec_not_mem_13 i)
        hutf, parseI64_intToDec i h1 h2]
      show _ = Except.ok (some (Value.integer i, (58 :: (intToDec i ++ [13, 10])).length))
      simp [List.length_cons, List.length_append]
    | boolean b =>
      show dispatch (parse_messageF fuel)
        ((35 :: ((if b then [116] else [102]) ++ [13, 10])) ++ rest) = _
      cases b with
      | true =>
        simp only [if_true, List.cons_append, List.nil_append, dispatch]
        norm_num
        rfl
      | false =>
        simp only [if_false, List.cons_append, List.nil_append, dispatch]
        norm_num
        rfl
    | bulkString s =>
      rw [Value.wellFormed] at hwf
      simp only [Bool.and_eq_true, decide_eq_true_eq] at hwf
      obtain ⟨hutf, hlen⟩ := hwf
      show dispatch (parse_messageF fuel)
        ((36 :: (natToDec s.length ++ [13, 10] ++ s ++ [13, 10])) ++ rest) = _
      have hshape : (36 :: (natToDec s.length ++ [13, 10] ++ s ++ [13, 10])) ++ rest =
          36 :: (natToDec s.length ++ 13 :: 10 :: (s ++ 13 :: 10 :: rest)) := by simp
      rw [hshape, dispatch]
      norm_num
      rw [parse_bulk_ok (natToDec s.length) s 13 10 rest (natToDec_ne_nil _)
        (natToDec_digit_bounds _) (by rw [decValue_natToDec]; exact hlen) hutf
        (decValue_natToDec s.length).symm]
      show _ = Except.ok (some (Value.bulkString s,
        (36 :: (natToDec s.length ++ [13, 10] ++ s ++ [13, 10])).length))
      simp [List.length_cons, List.length_append]
      omega
    | array vs =>
      rw [Value.wellFormed] at hwf
      simp only [Bool.and_eq_true, decide_eq_true_eq] at hwf
      obtain ⟨hlen, hwfl⟩ := hwf
      rw [Value.depth] at hd
      have hdl : depthList vs ≤ fuel := by omega
      have hpm : ∀ v ∈ vs, ∀ r : List Nat,
          parse_messageF fuel (v.serialize ++ r) = .ok (some (v, v.serialize.length)) := by
        intro v hv r
        exact ih v r (wellFormedList_mem vs hwfl v hv)
          (le_trans (depth_le_depthList vs v hv) hdl)
      show dispatch (parse_messageF fuel)
        ((42 :: (natToDec vs.length ++ [13, 10] ++ serializeList vs)) ++ rest) = _
      have hshape : (42 :: (natToDec vs.length ++ [13, 10] ++ serializeList vs)) ++ rest =
          42 :: (natToDec vs.length ++ 13 :: 10 :: (serializeList vs ++ rest)) := by simp
      rw [hshape, dispatch]
      norm_num
      have h2 : read_until_crlf
          ((42 :: (natToDec vs.length ++ 13 :: 10 :: (serializeList vs ++ rest))).drop 1) =
          some (natToDec vs.length, (natToDec vs.length).length + 2) :=
        read_until_crlf_append _ _ (natToDec_not_mem_13 _)
      have h3 : parse_int (natToDec vs.length) = .ok ((vs.length : Int)) := by
        rw [parse_int, parseI64_natToDec vs.length hlen]
      have h4 : ¬ ((vs.length : Int) = -1) := by
        have : (0 : Int) ≤ (vs.length : Int) := Int.natCast_nonneg _
        omega
      simp only [parse_array, h2, h3, h4, if_false, Int.toNat_natCast]
      have hdrop : (42 :: (natToDec vs.length ++ 13 :: 10 ::
          (serializeList vs ++ rest))).drop (1 + ((natToDec vs.length).length + 2)) =
          serializeList vs ++ rest := by
        rw [show 1 + ((natToDec vs.length).length + 2) = ((natToDec vs.length).length + 2) + 1
          by omega]
        rw [List.drop_succ_cons]
        rw [show natToDec vs.length ++ 13 :: 10 :: (serializeList vs ++ rest) =
          (natToDec vs.length ++ [13, 10]) ++ (serializeList vs ++ rest) by simp]
        exact List.drop_left' (by simp)
      rw [parse_elems_append (parse_messageF fuel) vs hpm _ _ [] rest hdrop]
      show _ = Except.ok (some (Value.array vs,
        (42 :: (natToDec vs.length ++ [13, 10] ++ serializeList vs)).length))
      simp [List.length_cons, List.length_append]
      omega

end RespParser

end Resp

end RustyKV
namespace RustyKV

namespace Resp

mutual

theorem Value.depth_le_serialize (V : Value) : V.depth ≤ V.serialize.length := by
  cases V with
  | null => simp [Value.depth, Value.serialize]
  | simpleString s => simp [Value.depth, Value.serialize]
  | bulkString s => simp [Value.depth, Value.serialize]
  | integer i => simp [Value.depth, Value.serialize]
  | error s => simp [Value.depth, Value.serialize]
  | boolean b => simp [Value.depth, Value.serialize]
  | array vs =>
    have h := depthList_le_serializeList vs
    have hd : 1 ≤ (natToDec vs.length).length := by
      cases hh : natToDec vs.length with
      | nil => exact absurd hh (natToDec_ne_nil _)
      | cons a l => simp
    simp only [Value.depth, Value.serialize, List.length_cons, List.length_append]
    omega

theorem depthList_le_serializeList (vs : List Value) :
    depthList vs ≤ (serializeList vs).length + 1 := by
  cases vs with
  | nil => simp [depthList, serializeList]
  | cons v vs =>
    have h1 := Value.depth_le_serialize v
    have h2 := depthList_le_serializeList vs
    simp only [depthList, serializeList, List.length_append]
    omega

end

end Resp

end RustyKV
namespace RustyKV

open Resp Resp.RespParser

/-- C4: for every `Value` constructible in the model (string fields are valid
UTF-8, `SimpleString`/`Error` text has no CR or LF, lengths and integers fit
in `i64`), parsing the serialization succeeds and yields exactly the pair
`(V, length of serialize V)`, nested arrays and the null forms included. -/
theorem claim_C4_parse_serialize_roundtrip (V : Resp.Value) (hwf : V.wellFormed = true) :
    parse_message V.serialize = .ok (some (V, V.serialize.length)) := by
  rw [parse_message]
  have h := parse_messageF_serialize (V.serialize.length + 1) V [] hwf
    (le_trans (Value.depth_le_serialize V) (by omega))
  rw [List.append_nil] at h
  exact h

/-- Witness for C4 at a concrete nested value. -/
theorem claim_C4_parse_serialize_roundtrip_witness :
    (Resp.Value.array [.simpleString [79, 75], .null, .integer (-5),
      .bulkString [97, 13, 10, 98], .boolean true, .array []]).wellFormed = true ∧
    parse_message (Resp.Value.array [.simpleString [79, 75], .null, .integer (-5),
      .bulkString [97, 13, 10, 98], .boolean true, .array []]).serialize =
      .ok (some (Resp.Value.array [.simpleString [79, 75], .null, .integer (-5),
        .bulkString [97, 13, 10, 98], .boolean true, .array []],
        (Resp.Value.array [.simpleString [79, 75], .null, .integer (-5),
          .bulkString [97, 13, 10, 98], .boolean true, .array []]).serialize.length)) :=
  ⟨rfl, claim_C4_parse_serialize_roundtrip _ rfl⟩

/-- C5 (divergence witness): on the buffer `*1\r\n` — a complete array
header announcing one element, with no element bytes yet — the parser
returns the hard error `Incomplete array element` instead of the
need-more-data result `Ok(None)`. -/
theorem claim_C5_partial_array_is_hard_error :
    parse_message [42, 49, 13, 10] = .error "Incomplete array element" ∧
    parse_message [42, 49, 13, 10] ≠ .ok none :=
  ⟨rfl, fun h => Except.noConfusion h⟩

/-- C8 (counterexample): the bulk-string frame `$1\r\n` + byte `0xFF` +
`\r\n` is complete (payload and trailing CRLF present), yet the parser
rejects it — `String::from_utf8` fails — rather than returning the
`BulkString` of the payload byte. -/
theorem claim_C8_counterexample :
    parse_message [36, 49, 13, 10, 255, 13, 10] = .error "invalid utf-8" ∧
    parse_message [36, 49, 13, 10, 255, 13, 10] ≠
      .ok (some (.bulkString [255], 8)) :=
  ⟨rfl, fun h => Except.noConfusion h⟩

/-- C8 (amended): for a bulk-string frame `$<len>\r\n<payload>` followed by
two further bytes, with the declared length matching the payload length: if
the payload is valid UTF-8 the parser returns its `BulkString` with consumed
count equal to the whole frame length, consuming the two trailing bytes
without verifying they are CRLF; a non-UTF-8 payload is a hard error. -/
theorem claim_C8_amended_bulk_frames (ds payload : List Nat) (t1 t2 : Nat) (rest : List Nat)
    (hne : ds ≠ []) (hdig : ∀ d ∈ ds, 48 ≤ d ∧ d ≤ 57) (hlt : decValue ds < 2 ^ 63)
    (hplen : payload.length = decValue ds) :
    (utf8Valid payload = true →
      parse_message (36 :: (ds ++ 13 :: 10 :: (payload ++ t1 :: t2 :: rest))) =
        .ok (some (.bulkString payload, ds.length + payload.length + 5))) ∧
    (utf8Valid payload = false →
      parse_message (36 :: (ds ++ 13 :: 10 :: (payload ++ t1 :: t2 :: rest))) =
        .error "invalid utf-8") := by
  constructor
  · intro hutf
    rw [parse_message, parse_messageF, dispatch]
    norm_num
    exact parse_bulk_ok ds payload t1 t2 rest hne hdig hlt hutf hplen
  · intro hutf
    rw [parse_message, parse_messageF, dispatch]
    norm_num
    exact parse_bulk_bad_utf8 ds payload t1 t2 rest hne hdig hlt hutf hplen

/-- Witness for the amended C8: frame `$1\r\na` followed by the two bytes
`XY` (not CRLF) parses as `BulkString "a"` consuming all 7 bytes. -/
theorem claim_C8_amended_bulk_frames_witness :
    parse_message [36, 49, 13, 10, 97, 88, 89] =
      .ok (some (.bulkString [97], 7)) :=
  (claim_C8_amended_bulk_frames [49] [97] 88 89 [] (by decide)
    (by decide) (by decide) (by decide)).1 rfl

end RustyKV

namespace RustyKV

theorem get_unauthenticated (store : KV.MemoryStore) (k : String)
    (h : store.is_authenticated = false) : store.get k = none := by
  rw [KV.MemoryStore.get, if_pos (by simp [h])]

theorem delLoop_unauthenticated (keys : List String) (store : KV.MemoryStore)
    (h : store.is_authenticated = false) : KV.delLoop keys store = store := by
  induction keys with
  | nil => rfl
  | cons k ks ih => rw [KV.delLoop, get_unauthenticated store k h, ih]

/-- C1 (amended): while the session is unauthenticated, `GET` and `SET`
return the error `Authentication required` (shown as `ERR Authentication
required` on the wire); `WHOAMI` returns the error `Not authenticated`
instead; `DEL` performs no authentication check at all and replies
`Integer(number of supplied keys)` (or the missing-key arity error); none of
the four mutates any store state. -/
theorem claim_C1_amended_unauthenticated_commands (K : String → List Nat)
    (args : List KV.Value) (store : KV.MemoryStore) (db : List (String × String))
    (h : store.is_authenticated = false) :
    KV.CommandExecutor.execute K "GET" args store db =
      (.error "Authentication required", store) ∧
    KV.CommandExecutor.execute K "SET" args store db =
      (.error "Authentication required", store) ∧
    KV.CommandExecutor.execute K "WHOAMI" args store db =
      (.error "Not authenticated", store) ∧
    (args = [] → KV.CommandExecutor.execute K "DEL" args store db =
      (.error "DEL requires at least one key", store)) ∧
    (args ≠ [] → KV.CommandExecutor.execute K "DEL" args store db =
      (.ok (.integer (args.length : Int)), store)) ∧
    KV.formatResult (KV.CommandExecutor.execute K "GET" args store db).1 =
      .error "ERR Authentication required" := by
  have hget : KV.CommandExecutor.execute K "GET" args store db =
      (.error "Authentication required", store) := by
    show (KV.GetCommand.execute (args.map KV.valueToStringArg) store, store) = _
    rw [KV.GetCommand.execute.eq_def]
    simp [h]
  refine ⟨hget, ?_, ?_, ?_, ?_, by rw [hget]; rfl⟩
  · show (match KV.SetCommand.execute (args.map KV.valueToStringArg) store args with
      | .ok (v, store') => (Except.ok v, store')
      | .error e => (.error e, store)) = _
    rw [KV.SetCommand.execute.eq_def]
    simp [h]
  · show (KV.WhoAmi.execute K store db, store) = _
    rw [KV.WhoAmi.execute.eq_def]
    simp [h]
  · intro hargs
    subst hargs
    rfl
  · intro hargs
    show (match KV.DeleteCommand.execute (args.map KV.valueToStringArg) store with
      | .ok (v, store') => (Except.ok v, store')
      | .error e => (.error e, store)) = _
    rw [KV.DeleteCommand.execute]
    rw [if_neg (by simpa using hargs)]
    rw [delLoop_unauthenticated _ store h]
    simp [List.length_map]

/-- Witness for the amended C1 on a concrete unauthenticated store. -/
theorem claim_C1_amended_unauthenticated_commands_witness :
    KV.MemoryStore.new.is_authenticated = false ∧
    KV.CommandExecutor.execute (fun _ => []) "GET" [KV.Value.bulkString "k"]
      KV.MemoryStore.new [] = (.error "Authentication required", KV.MemoryStore.new) :=
  ⟨rfl, (claim_C1_amended_unauthenticated_commands (fun _ => [])
    [KV.Value.bulkString "k"] KV.MemoryStore.new [] rfl).1⟩

/-- C1 (counterexample): on a fresh unauthenticated store, `DEL k` replies
`Integer 1` — not the error `Authentication required` the claim demands for
every one of GET/SET/DEL/WHOAMI. -/
theorem claim_C1_counterexample_del_unauthenticated :
    (KV.CommandExecutor.execute (fun _ => []) "DEL" [KV.Value.bulkString "k"]
      KV.MemoryStore.new []).1 = .ok (.integer 1) ∧
    (KV.CommandExecutor.execute (fun _ => []) "DEL" [KV.Value.bulkString "k"]
      KV.MemoryStore.new []).1 ≠ .error "Authentication required" :=
  ⟨rfl, fun h => Except.noConfusion h⟩

/-- C3 (divergence witness): after an authenticated `SET k v EX 1`, the
entry is stored together with its `EX 1` option, yet `GET k` returns the
value: the store keeps no insertion instant and never reads the options, so
no amount of elapsed time can make the key expire. -/
theorem claim_C3_expiration_never_checked :
    (KV.CommandExecutor.execute (fun _ => []) "SET"
      [KV.Value.bulkString "k", KV.Value.bulkString "v", KV.Value.bulkString "EX",
        KV.Value.bulkString "1"]
      (KV.MemoryStore.new.set_current_user (some "id")) []).1 =
      .ok (.simpleString "OK") ∧
    (KV.CommandExecutor.execute (fun _ => []) "GET" [KV.Value.bulkString "k"]
      (KV.CommandExecutor.execute (fun _ => []) "SET"
        [KV.Value.bulkString "k", KV.Value.bulkString "v", KV.Value.bulkString "EX",
          KV.Value.bulkString "1"]
        (KV.MemoryStore.new.set_current_user (some "id")) []).2 []).1 =
      .ok (.bulkString "v") :=
  ⟨rfl, rfl⟩

/-- C2 (divergence witness): `main` creates one `MemoryStore` and hands each
connection a `clone()`; since `#[derive(Clone)]` clones the `Arc`s, the
clone aliases the same `current_user` cell, so an identity set through one
connection's handle is observed through the other's `get_current_user` /
`is_authenticated`. -/
theorem claim_C2_clone_shares_current_identity :
    ((Session.Heap.empty.newStore).1.clone = (Session.Heap.empty.newStore).1) ∧
    ((Session.Heap.empty.newStore).2.set_current_user (Session.Heap.empty.newStore).1
        (some "cred")).get_current_user ((Session.Heap.empty.newStore).1.clone) =
      some "cred" ∧
    ((Session.Heap.empty.newStore).2.set_current_user (Session.Heap.empty.newStore).1
        (some "cred")).is_authenticated ((Session.Heap.empty.newStore).1.clone) = true :=
  ⟨rfl, rfl, rfl⟩

end RustyKV
namespace RustyKV

/-- C6: both AUTH failure modes — unknown username, and known username with
a non-matching password digest — produce the byte-identical user-visible
error `Invalid username or password` (no username enumeration). -/
theorem claim_C6_auth_failure_uniform_error (K : String → List Nat)
    (store : KV.MemoryStore) (db : List (String × String)) (u p : String) :
    (KV.alist.get u db = none →
      KV.AuthCommand.execute K [u, p] store db =
        .error "Invalid username or password") ∧
    (∀ stored, KV.alist.get u db = some stored → stored ≠ KV.hexLower (K p) →
      KV.AuthCommand.execute K [u, p] store db =
        .error "Invalid username or password") := by
  constructor
  · intro hnone
    rw [KV.AuthCommand.execute.eq_def]
    simp [hnone]
  · intro stored hsome hne
    rw [KV.AuthCommand.execute.eq_def]
    simp [hsome, hne]

/-- Witness for C6: wrong user and wrong password against a one-row table
give the same error text. -/
theorem claim_C6_auth_failure_uniform_error_witness :
    KV.AuthCommand.execute (fun _ => []) ["bob", "pw"] KV.MemoryStore.new
      [("alice", "zz")] = .error "Invalid username or password" ∧
    KV.AuthCommand.execute (fun _ => []) ["alice", "pw"] KV.MemoryStore.new
      [("alice", "zz")] = .error "Invalid username or password" :=
  ⟨(claim_C6_auth_failure_uniform_error (fun _ => []) KV.MemoryStore.new
      [("alice", "zz")] "bob" "pw").1 rfl,
   (claim_C6_auth_failure_uniform_error (fun _ => []) KV.MemoryStore.new
      [("alice", "zz")] "alice" "pw").2 "zz" rfl (by decide)⟩

theorem alist_get_append_self {α : Type} (u0 : String) (v : α)
    (db0 : List (String × α)) (h : KV.alist.get u0 db0 = none) :
    KV.alist.get u0 (db0 ++ [(u0, v)]) = some v := by
  induction db0 with
  | nil => simp [KV.alist.get]
  | cons row rows ih =>
    cases row with
    | mk k w =>
      rw [List.cons_append, KV.alist.get]
      rw [KV.alist.get] at h
      by_cases hk : k = u0
      · rw [if_pos hk] at h
        exact absurd h (by simp)
      · rw [if_neg hk] at h ⊢
        exact ih h

theorem hexLower_toList (bs : List Nat) :
    (KV.hexLower bs).toList = bs.foldr (fun b acc => KV.hexByte b ++ acc) [] := rfl

theorem hexLower_length (bs : List Nat) : (KV.hexLower bs).length = 2 * bs.length := by
  show (KV.hexLower bs).toList.length = 2 * bs.length
  rw [hexLower_toList]
  induction bs with
  | nil => rfl
  | cons b bs ih =>
    simp only [List.foldr_cons, KV.hexByte, List.cons_append, List.nil_append,
      List.length_cons, List.length_append] at *
    omega

theorem hexDigit_mem_hexChars (n : Nat) (h : n < 16) :
    (if n < 10 then Char.ofNat (48 + n) else Char.ofNat (87 + n)) ∈
      ("0123456789abcdef".toList) := by
  interval_cases n <;> decide

theorem hexLower_chars (bs : List Nat) :
    ∀ c ∈ (KV.hexLower bs).toList, c ∈ ("0123456789abcdef".toList) := by
  rw [hexLower_toList]
  induction bs with
  | nil => intro c hc; simp at hc
  | cons b bs ih =>
    intro c hc
    simp only [List.foldr_cons, KV.hexByte, List.cons_append, List.nil_append] at hc
    rcases List.mem_cons.mp hc with h | hc2
    · rw [h]; exact hexDigit_mem_hexChars _ (by omega)
    · rcases List.mem_cons.mp hc2 with h | hc3
      · rw [h]; exact hexDigit_mem_hexChars _ (by omega)
      · exact ih c hc3

/-- C7: on AUTH success against a stored digest, the session identity set in
the store is `hexLower (K (username ++ ":" ++ stored_digest))`; the seeding
path stores `hexLower (K plaintext))` as the digest; the derivation is a
pure function of `(username, stored_digest)`, so two successful AUTH calls
on any two stores yield the same identity; and the rendering is lowercase
hex of twice the digest's byte count (64 characters for a 256-bit Keccak
digest). -/
theorem claim_C7_identity_derivation (K : String → List Nat)
    (store store2 : KV.MemoryStore) (db : List (String × String)) (u p stored : String)
    (hlookup : KV.alist.get u db = some stored)
    (hmatch : stored = KV.hexLower (K p)) :
    KV.AuthCommand.execute K [u, p] store db =
      .ok (.simpleString "OK",
        store.set_current_user (some (KV.hexLower (K (u ++ ":" ++ stored))))) ∧
    (store.set_current_user
        (some (KV.hexLower (K (u ++ ":" ++ stored))))).current_user =
      some (KV.hexLower (K (u ++ ":" ++ stored))) ∧
    (∀ r1 s1 r2 s2, KV.AuthCommand.execute K [u, p] store db = .ok (r1, s1) →
      KV.AuthCommand.execute K [u, p] store2 db = .ok (r2, s2) →
      s1.current_user = s2.current_user) ∧
    (∀ db0 u0 p0, KV.alist.containsKey u0 db0 = false →
      KV.alist.get u0 (KV.dbInsertUser K db0 u0 p0) = some (KV.hexLower (K p0))) ∧
    ((KV.hexLower (K (u ++ ":" ++ stored))).length = 2 * (K (u ++ ":" ++ stored)).length ∧
      ∀ c ∈ (KV.hexLower (K (u ++ ":" ++ stored))).toList,
        c ∈ ("0123456789abcdef".toList)) := by
  have hok : KV.AuthCommand.execute K [u, p] store db =
      .ok (.simpleString "OK",
        store.set_current_user (some (KV.hexLower (K (u ++ ":" ++ stored))))) := by
    rw [KV.AuthCommand.execute.eq_def]
    simp [hlookup, hmatch]
  have hok2 : KV.AuthCommand.execute K [u, p] store2 db =
      .ok (.simpleString "OK",
        store2.set_current_user (some (KV.hexLower (K (u ++ ":" ++ stored))))) := by
    rw [KV.AuthCommand.execute.eq_def]
    simp [hlookup, hmatch]
  refine ⟨hok, ?_, ?_, ?_, hexLower_length _, hexLower_chars _⟩
  · rw [KV.MemoryStore.set_current_user]
    cases hc : KV.alist.containsKey (KV.hexLower (K (u ++ ":" ++ stored)))
        store.auth_stores <;> simp [hc]
  · intro r1 s1 r2 s2 h1 h2
    rw [hok] at h1
    rw [hok2] at h2
    have e1 : s1 = store.set_current_user (some (KV.hexLower (K (u ++ ":" ++ stored)))) := by
      cases h1; rfl
    have e2 : s2 = store2.set_current_user (some (KV.hexLower (K (u ++ ":" ++ stored)))) := by
      cases h2; rfl
    subst e1
    subst e2
    rw [KV.MemoryStore.set_current_user, KV.MemoryStore.set_current_user]
    cases hc1 : KV.alist.containsKey (KV.hexLower (K (u ++ ":" ++ stored)))
        store.auth_stores <;>
      cases hc2 : KV.alist.containsKey (KV.hexLower (K (u ++ ":" ++ stored)))
        store2.auth_stores <;> simp [hc1, hc2]
  · intro db0 u0 p0 habs
    rw [KV.dbInsertUser, if_neg (by simp [habs])]
    cases hg : KV.alist.get u0 db0 with
    | none => exact alist_get_append_self u0 _ db0 hg
    | some w =>
      rw [KV.alist.containsKey, hg] at habs
      simp at habs

/-- Witness for C7 with a concrete two-byte digest function. -/
theorem claim_C7_identity_derivation_witness :
    KV.AuthCommand.execute (fun _ => [7]) ["u", "p"] KV.MemoryStore.new [("u", "07")] =
      .ok (.simpleString "OK",
        KV.MemoryStore.new.set_current_user
          (some (KV.hexLower ((fun (_ : String) => ([7] : List Nat)) ("u:" ++ "07"))))) :=
  (claim_C7_identity_derivation (fun _ => [7]) KV.MemoryStore.new KV.MemoryStore.new
    [("u", "07")] "u" "p" "07" rfl rfl).1

end RustyKV
namespace RustyKV

namespace KV

theorem alist_get_insert_self {α : Type} (k : String) (v : α) (l : List (String × α)) :
    alist.get k (alist.insert k v l) = some v := by
  induction l with
  | nil => simp [alist.insert, alist.get]
  | cons row rows ih =>
    cases row with
    | mk k' w =>
      rw [alist.insert]
      by_cases hk : k' = k
      · rw [if_pos hk, alist.get, if_pos rfl]
      · rw [if_neg hk, alist.get, if_neg hk]
        exact ih

theorem alist_get_insert_ne {α : Type} (k k' : String) (v : α) (l : List (String × α))
    (h : k' ≠ k) : alist.get k (alist.insert k' v l) = alist.get k l := by
  induction l with
  | nil => simp [alist.insert, alist.get, h]
  | cons row rows ih =>
    cases row with
    | mk k'' w =>
      rw [alist.insert]
      by_cases hk : k'' = k'
      · rw [if_pos hk, alist.get, if_neg h, alist.get, if_neg (hk ▸ h)]
      · rw [if_neg hk, alist.get, alist.get]
        by_cases hk2 : k'' = k
        · rw [if_pos hk2, if_pos hk2]
        · rw [if_neg hk2, if_neg hk2]
          exact ih

theorem alist_containsKey_insert_self {α : Type} (k : String) (v : α)
    (l : List (String × α)) : alist.containsKey k (alist.insert k v l) = true := by
  rw [alist.containsKey, alist_get_insert_self]
  rfl

theorem alist_containsKey_insert_of {α : Type} (x k : String) (v : α)
    (l : List (String × α)) (h : alist.containsKey x l = true) :
    alist.containsKey x (alist.insert k v l) = true := by
  by_cases hk : k = x
  · subst hk
    exact alist_containsKey_insert_self k v l
  · rw [alist.containsKey, alist_get_insert_ne x k v l hk]
    exact h

theorem updateUser_identityInvariant (s : MemoryStore) (uh : String) (ust : UserStore)
    (h : s.identityInvariant) : (s.updateUser uh ust).identityInvariant := by
  intro x hx
  have hx' : s.current_user = some x := hx
  exact alist_containsKey_insert_of x uh ust s.auth_stores (h x hx')

theorem set_current_user_identityInvariant (s : MemoryStore) (uh : Option String) :
    (s.set_current_user uh).identityInvariant := by
  intro x hx
  rw [MemoryStore.set_current_user.eq_def] at hx ⊢
  cases uh with
  | none => exact absurd hx (by simp)
  | some hash =>
    simp only at hx ⊢
    by_cases hc : alist.containsKey hash s.auth_stores = true
    · rw [if_pos hc] at hx ⊢
      have : hash = x := by simpa using hx
      subst this
      exact hc
    · rw [if_neg hc] at hx ⊢
      have : hash = x := by simpa using hx
      subst this
      exact alist_containsKey_insert_self hash ⟨[]⟩ s.auth_stores

end KV

end RustyKV
namespace RustyKV

namespace KV

theorem create_entity_identityInvariant (s : MemoryStore) (t n : String)
    (s' : MemoryStore) (h : s.identityInvariant) (he : s.create_entity t n = .ok s') :
    s'.identityInvariant := by
  simp only [MemoryStore.create_entity] at he
  split at he
  · exact absurd he (by simp)
  · split at he
    · exact absurd he (by simp)
    · split at he
      · exact absurd he (by simp)
      · split at he
        · cases he
          exact updateUser_identityInvariant _ _ _ h
        · exact absurd he (by simp)

end KV

end RustyKV
namespace RustyKV

namespace KV

theorem entity_add_identityInvariant (s : MemoryStore) (e k : String) (v : Value)
    (s' : MemoryStore) (h : s.identityInvariant) (he : s.entity_add e k v = .ok s') :
    s'.identityInvariant := by
  simp only [MemoryStore.entity_add] at he
  split at he
  · exact absurd he (by simp)
  · split at he
    · exact absurd he (by simp)
    · split at he
      · exact absurd he (by simp)
      · split at he
        · exact absurd he (by simp)
        · rename_i store1 hafter
          have h1 : store1.identityInvariant := by
            split at hafter
            · cases hafter
              exact h
            · exact create_entity_identityInvariant s "hashmap" e store1 h hafter
          split at he
          · exact absurd he (by simp)
          · split at he
            · cases he
              exact h1
            · cases he
              exact updateUser_identityInvariant _ _ _ h1
            · cases he
              exact updateUser_identityInvariant _ _ _ h1
            · cases he
              exact updateUser_identityInvariant _ _ _ h1

theorem entity_delete_identityInvariant (s : MemoryStore) (e k : String)
    (r : Option Value) (s' : MemoryStore) (h : s.identityInvariant)
    (he : s.entity_delete e k = .ok (r, s')) : s'.identityInvariant := by
  simp only [MemoryStore.entity_delete] at he
  split at he
  · exact absurd he (by simp)
  · split at he
    · exact absurd he (by simp)
    · split at he
      · exact absurd he (by simp)
      · split at he
        · exact absurd he (by simp)
        · cases he
          exact updateUser_identityInvariant _ _ _ h
        · cases he
          exact updateUser_identityInvariant _ _ _ h
        · cases he
          exact updateUser_identityInvariant _ _ _ h

theorem set_identityInvariant (s : MemoryStore) (k : String) (v : Value) (args : OptsMap)
    (s' : MemoryStore) (h : s.identityInvariant) (he : s.set k v args = .ok s') :
    s'.identityInvariant := by
  simp only [MemoryStore.set] at he
  split at he
  · exact absurd he (by simp)
  · split at he
    · exact entity_add_identityInvariant s _ _ v s' h he
    · split at he
      · exact absurd he (by simp)
      · split at he
        · exact absurd he (by simp)
        · split at he
          · cases he
            exact updateUser_identityInvariant _ _ _ h
          · exact absurd he (by simp)

theorem delete_identityInvariant (s : MemoryStore) (k : String)
    (h : s.identityInvariant) : ((s.delete k).2).identityInvariant := by
  rw [MemoryStore.delete.eq_def]
  split
  · exact h
  · split
    · split
      · rename_i rv s1 heq
        exact entity_delete_identityInvariant s _ _ rv s1 h heq
      · exact h
    · split
      · exact h
      · split
        · exact h
        · split
          · exact updateUser_identityInvariant _ _ _ h
          · exact h

theorem auth_identityInvariant (K : String → List Nat) (args : List String)
    (s : MemoryStore) (db : List (String × String)) (v : Value) (s' : MemoryStore)
    (he : AuthCommand.execute K args s db = .ok (v, s')) : s'.identityInvariant := by
  simp only [AuthCommand.execute] at he
  split at he
  · split at he
    · split at he
      · cases he
        exact set_current_user_identityInvariant _ _
      · exact absurd he (by simp)
    · exact absurd he (by simp)
  · exact absurd he (by simp)

end KV

end RustyKV
namespace RustyKV

theorem set_current_user_sets (s : KV.MemoryStore) (h' : String) :
    (s.set_current_user (some h')).current_user = some h' := by
  rw [KV.MemoryStore.set_current_user.eq_def]
  by_cases hc : KV.alist.containsKey h' s.auth_stores = true <;> simp [hc]

/-- C9: the state invariant — `current_identity` is either null or an
identity owning a `UserStore` — is established by `set_current_user` (the
only writer of the identity, and it creates the `UserStore` when absent) and
preserved by every store operation and by `AUTH`. -/
theorem claim_C9_identity_invariant :
    (∀ (s : KV.MemoryStore) (uh : Option String),
      (s.set_current_user uh).identityInvariant) ∧
    (∀ (s : KV.MemoryStore) (h' : String),
      KV.alist.containsKey h' (s.set_current_user (some h')).auth_stores = true) ∧
    (∀ (s : KV.MemoryStore) (k : String) (v : KV.Value) (args : KV.OptsMap)
        (s' : KV.MemoryStore), s.identityInvariant → s.set k v args = .ok s' →
      s'.identityInvariant) ∧
    (∀ (s : KV.MemoryStore) (k : String), s.identityInvariant →
      ((s.delete k).2).identityInvariant) ∧
    (∀ (s : KV.MemoryStore) (t n : String) (s' : KV.MemoryStore),
      s.identityInvariant → s.create_entity t n = .ok s' → s'.identityInvariant) ∧
    (∀ (s : KV.MemoryStore) (e k : String) (v : KV.Value) (s' : KV.MemoryStore),
      s.identityInvariant → s.entity_add e k v = .ok s' → s'.identityInvariant) ∧
    (∀ (s : KV.MemoryStore) (e k : String) (r : Option KV.Value) (s' : KV.MemoryStore),
      s.identityInvariant → s.entity_delete e k = .ok (r, s') → s'.identityInvariant) ∧
    (∀ (K : String → List Nat) (args : List String) (s : KV.MemoryStore)
        (db : List (String × String)) (v : KV.Value) (s' : KV.MemoryStore),
      KV.AuthCommand.execute K args s db = .ok (v, s') → s'.identityInvariant) := by
  refine ⟨?_, ?_, ?_, ?_, ?_, ?_, ?_, ?_⟩
  · exact KV.set_current_user_identityInvariant
  · intro s h'
    exact KV.set_current_user_identityInvariant s (some h') h' (set_current_user_sets s h')
  · exact fun s k v args s' => KV.set_identityInvariant s k v args s'
  · exact fun s k => KV.delete_identityInvariant s k
  · exact fun s t n s' => KV.create_entity_identityInvariant s t n s'
  · exact fun s e k v s' => KV.entity_add_identityInvariant s e k v s'
  · exact fun s e k r s' => KV.entity_delete_identityInvariant s e k r s'
  · exact fun K args s db v s' => KV.auth_identityInvariant K args s db v s'

/-- Witness for C9: setting a concrete identity on the fresh store creates
its `UserStore`. -/
theorem claim_C9_identity_invariant_witness :
    KV.alist.containsKey "id"
      ((KV.MemoryStore.new.set_current_user (some "id")).auth_stores) = true :=
  claim_C9_identity_invariant.2.1 KV.MemoryStore.new "id"

end RustyKV
namespace RustyKV

namespace KV

theorem splitFirstDot_snd_ne (k : String) (h : containsDot k = true) :
    (splitFirstDot k).2 ≠ k := by
  intro heq
  have hdrop : k.toList.dropWhile (fun c => c ≠ '.') ≠ [] := by
    intro hnil
    rw [containsDot] at h
    have hmem : '.' ∈ k.toList := by
      simpa using h
    have := List.dropWhile_eq_nil_iff.mp hnil '.' hmem
    simp at this
  have hlen : ((splitFirstDot k).2).toList.length < k.toList.length := by
    show ((k.toList.dropWhile (fun c => c ≠ '.')).tail).length < k.toList.length
    have h1 : (k.toList.dropWhile (fun c => c ≠ '.')).length ≤ k.toList.length :=
      (List.dropWhile_sublist _).length_le
    have h2 : 0 < (k.toList.dropWhile (fun c => c ≠ '.')).length :=
      List.length_pos.mpr hdrop
    rw [List.length_tail]
    omega
  rw [heq] at hlen
  omega

theorem create_entity_hashmap_ok (s : MemoryStore) (n : String) (uh : String)
    (ust : UserStore) (hauth : s.is_authenticated = true)
    (hcu : s.current_user = some uh) (hust : alist.get uh s.auth_stores = some ust) :
    s.create_entity "hashmap" n =
      .ok (s.updateUser uh ⟨alist.insert n (.hashMap []) ust.entities⟩) := by
  rw [MemoryStore.create_entity.eq_def]
  rw [if_neg (by simp [hauth])]
  have hcu' : s.get_current_user = some uh := hcu
  simp only [hcu', hust]
  have e1 : strToLower "hashmap" = "hashmap" := rfl
  rw [e1, if_neg (by decide : ¬ ("hashmap" : String) = "set"), if_pos rfl]

end KV

end RustyKV
namespace RustyKV

namespace KV

theorem defaultEntry_updateUser (s : MemoryStore) (uh : String) (ust' : UserStore)
    (k : String) (hcu : s.current_user = some uh) :
    defaultEntry (s.updateUser uh ust') k =
      (match alist.get "default" ust'.entities with
       | some (.hashMap m) => alist.get k m
       | _ => none) := by
  rw [defaultEntry.eq_def]
  simp only [MemoryStore.updateUser, hcu, alist_get_insert_self]

theorem defaultEntry_eq (s : MemoryStore) (uh : String) (ust : UserStore)
    (hcu : s.current_user = some uh) (hust : alist.get uh s.auth_stores = some ust)
    (k : String) :
    defaultEntry s k =
      (match alist.get "default" ust.entities with
       | some (.hashMap m) => alist.get k m
       | _ => none) := by
  rw [defaultEntry.eq_def]
  simp only [hcu, hust]

theorem updateUser_get_self (s : MemoryStore) (uh : String) (u : UserStore) :
    alist.get uh (s.updateUser uh u).auth_stores = some u := by
  simp [MemoryStore.updateUser, alist_get_insert_self]

theorem entity_add_defaultEntry (s : MemoryStore) (e ek : String) (v : Value)
    (s' : MemoryStore) (k : String) (hk : ek ≠ k)
    (he : s.entity_add e ek v = .ok s') :
    defaultEntry s' k = defaultEntry s k := by
  simp only [MemoryStore.entity_add] at he
  split at he
  · exact absurd he (by simp)
  · rename_i hauthn
    have hauth : s.is_authenticated = true := not_not.mp hauthn
    split at he
    · exact absurd he (by simp)
    · rename_i uh heq1
      have hcu : s.current_user = some uh := heq1
      split at he
      · exact absurd he (by simp)
      · rename_i ust heq2
        split at he
        · exact absurd he (by simp)
        · rename_i store1 hafter
          split at hafter
          · -- the entity already exists: no store was created
            cases hafter
            simp only [heq2] at he
            split at he
            · cases he
              rfl
            · rename_i s0 heqe
              cases he
              rw [defaultEntry_updateUser s uh _ k hcu, defaultEntry_eq s uh ust hcu heq2 k]
              by_cases hde : e = "default"
              · subst hde
                simp only [alist_get_insert_self, heqe]
              · rw [alist_get_insert_ne _ _ _ _ hde]
            · rename_i m heqe
              cases he
              rw [defaultEntry_updateUser s uh _ k hcu, defaultEntry_eq s uh ust hcu heq2 k]
              by_cases hde : e = "default"
              · subst hde
                simp only [alist_get_insert_self, heqe]
                exact alist_get_insert_ne k ek (v, []) m hk
              · rw [alist_get_insert_ne _ _ _ _ hde]
            · rename_i l heqe
              cases he
              rw [defaultEntry_updateUser s uh _ k hcu, defaultEntry_eq s uh ust hcu heq2 k]
              by_cases hde : e = "default"
              · subst hde
                simp only [alist_get_insert_self, heqe]
              · rw [alist_get_insert_ne _ _ _ _ hde]
          · -- the entity was created as a fresh hashmap first
            rename_i hex
            rw [create_entity_hashmap_ok s e uh ust hauth hcu heq2] at hafter
            cases hafter
            simp only [updateUser_get_self, alist_get_insert_self] at he
            cases he
            rw [defaultEntry_updateUser _ uh _ k (by exact hcu),
              defaultEntry_eq s uh ust hcu heq2 k]
            by_cases hde : e = "default"
            · subst hde
              simp only [alist_get_insert_self]
              have hnone : alist.get "default" ust.entities = none := by
                cases hg : alist.get "default" ust.entities with
                | none => rfl
                | some w =>
                  rw [alist.containsKey, hg] at hex
                  simp at hex
              rw [alist_get_insert_ne k ek (v, []) [] hk, hnone]
              simp [alist.get]
            · rw [alist_get_insert_ne _ _ _ _ hde, alist_get_insert_ne _ _ _ _ hde]

end KV

end RustyKV
namespace RustyKV

theorem set_nondot_defaultEntry (s : KV.MemoryStore) (k : String) (v : KV.Value)
    (args : KV.OptsMap) (s' : KV.MemoryStore) (hdot : KV.containsDot k = false)
    (hset : s.set k v args = .ok s') : KV.defaultEntry s' k = some (v, args) := by
  simp only [KV.MemoryStore.set] at hset
  split at hset
  · exact absurd hset (by simp)
  · rw [if_neg (by simp [hdot])] at hset
    split at hset
    · exact absurd hset (by simp)
    · rename_i uh heq1
      have hcu : s.current_user = some uh := heq1
      split at hset
      · exact absurd hset (by simp)
      · rename_i ust heq2
        split at hset
        · rename_i m heqd
          cases hset
          rw [KV.defaultEntry_updateUser s uh _ k hcu]
          simp only [KV.alist_get_insert_self]
        · exact absurd hset (by simp)

theorem get_nondot_defaultEntry (s : KV.MemoryStore) (k : String)
    (hdot : KV.containsDot k = false) :
    s.get k = (KV.defaultEntry s k).map Prod.fst := by
  rw [KV.MemoryStore.get.eq_def, KV.defaultEntry.eq_def]
  by_cases hauth : s.is_authenticated = true
  · rw [if_neg (by simp [hauth]), if_neg (by simp [hdot])]
    cases hcu : s.current_user with
    | none =>
      rw [KV.MemoryStore.is_authenticated, hcu] at hauth
      simp at hauth
    | some uh =>
      have hcu' : s.get_current_user = some uh := hcu
      simp only [hcu', hcu]
      cases hust : KV.alist.get uh s.auth_stores with
      | none => rfl
      | some ust =>
        simp only []
        cases hde : KV.alist.get "default" ust.entities with
        | none => rfl
        | some ent => cases ent <;> rfl
  · rw [if_pos (by simp [hauth])]
    have hcu : s.current_user = none := by
      cases hcc : s.current_user with
      | none => rfl
      | some w =>
        rw [KV.MemoryStore.is_authenticated, hcc] at hauth
        simp at hauth
    simp only [hcu]
    rfl

/-- C10: a key containing a dot is split at its first dot into
`(entity_name, entity_key)` and `set`/`get`/`delete` route to the entity
operations on those parts (`entity_add` creating the entity as a `HashMap`
when absent), so the literal dotted key is never stored in or read from the
`default` map; a key without a dot always uses the `default` `HashMap`
entity at the literal key. -/
theorem claim_C10_dotted_key_routing (s : KV.MemoryStore) (k : String) (v : KV.Value)
    (args : KV.OptsMap) :
    (KV.containsDot k = true →
      s.set k v args = s.entity_add (KV.splitFirstDot k).1 (KV.splitFirstDot k).2 v ∧
      s.get k = (match s.entity_get (KV.splitFirstDot k).1 (KV.splitFirstDot k).2 with
        | .ok r => r
        | .error _ => none) ∧
      s.delete k = (match s.entity_delete (KV.splitFirstDot k).1 (KV.splitFirstDot k).2 with
        | .ok p => p
        | .error _ => (none, s)) ∧
      (∀ s', s.set k v args = .ok s' → KV.defaultEntry s' k = KV.defaultEntry s k)) ∧
    (KV.containsDot k = false →
      s.get k = (KV.defaultEntry s k).map Prod.fst ∧
      (∀ s', s.set k v args = .ok s' → KV.defaultEntry s' k = some (v, args))) := by
  constructor
  · intro hdot
    refine ⟨?_, ?_, ?_, ?_⟩
    · by_cases hauth : s.is_authenticated = true
      · rw [KV.MemoryStore.set.eq_def, if_neg (by simp [hauth]), if_pos hdot]
      · rw [KV.MemoryStore.set.eq_def, if_pos (by simp [hauth]),
          KV.MemoryStore.entity_add.eq_def, if_pos (by simp [hauth])]
    · by_cases hauth : s.is_authenticated = true
      · rw [KV.MemoryStore.get.eq_def, if_neg (by simp [hauth]), if_pos hdot]
      · rw [KV.MemoryStore.get.eq_def, if_pos (by simp [hauth]),
          KV.MemoryStore.entity_get.eq_def, if_pos (by simp [hauth])]
    · by_cases hauth : s.is_authenticated = true
      · rw [KV.MemoryStore.delete.eq_def, if_neg (by simp [hauth]), if_pos hdot]
        cases hres : s.entity_delete (KV.splitFirstDot k).1 (KV.splitFirstDot k).2 with
        | error e => rfl
        | ok p =>
          obtain ⟨rv, s1⟩ := p
          rfl
      · rw [KV.MemoryStore.delete.eq_def, if_pos (by simp [hauth]),
          KV.MemoryStore.entity_delete.eq_def, if_pos (by simp [hauth])]
    · intro s' hset
      have hroute : s.set k v args =
          s.entity_add (KV.splitFirstDot k).1 (KV.splitFirstDot k).2 v := by
        by_cases hauth : s.is_authenticated = true
        · rw [KV.MemoryStore.set.eq_def, if_neg (by simp [hauth]), if_pos hdot]
        · rw [KV.MemoryStore.set.eq_def, if_pos (by simp [hauth]),
            KV.MemoryStore.entity_add.eq_def, if_pos (by simp [hauth])]
      rw [hroute] at hset
      exact KV.entity_add_defaultEntry s _ _ v s' k (KV.splitFirstDot_snd_ne k hdot) hset
  · intro hdot
    exact ⟨get_nondot_defaultEntry s k hdot,
      fun s' hset => set_nondot_defaultEntry s k v args s' hdot hset⟩

/-- Witness for C10 at the dotted key `ent.x` and the plain key `y`. -/
theorem claim_C10_dotted_key_routing_witness :
    ((KV.MemoryStore.new.set_current_user (some "id")).set "ent.x"
        (KV.Value.bulkString "v") [] =
      (KV.MemoryStore.new.set_current_user (some "id")).entity_add "ent" "x"
        (KV.Value.bulkString "v")) ∧
    ((KV.MemoryStore.new.set_current_user (some "id")).get "y" =
      (KV.defaultEntry (KV.MemoryStore.new.set_current_user (some "id")) "y").map
        Prod.fst) :=
  ⟨((claim_C10_dotted_key_routing (KV.MemoryStore.new.set_current_user (some "id"))
      "ent.x" (KV.Value.bulkString "v") []).1 rfl).1,
   ((claim_C10_dotted_key_routing (KV.MemoryStore.new.set_current_user (some "id"))
      "y" (KV.Value.bulkString "v") []).2 rfl).1⟩

end RustyKV
